import Mathlib

/-!
Verification of the bigblob-decoder codebase: a shallow embedding of the
BC7 block codec (src/bc7.rs, src/bc7/decode.rs, src/bc7/encode.rs), the DDS
mipmap-count helper (src/dds.rs) and the archive TOC codec
(src/lib.rs, src/encoding.rs), together with proofs about the embedded
functions.

Machine integers are modelled as `Nat` with explicit `% 2 ^ w` at the points
where the Rust code truncates (u8 shifts, `as u32` casts, u32 wrapping
arithmetic).  Byte streams are `List Nat` (each element a byte).  Rust
panics (`unwrap`, `unimplemented!`) and I/O errors are modelled with
`Option`.
-/

/-- Bit extraction state step: reading `k` low bits of `s` yields
`s % 2 ^ k` and leaves `s / 2 ^ k` (src/bc7/decode.rs `take_bits`). -/
def takeBitsList (k : Nat) : Nat → Nat → List Nat × Nat
  | 0, s => ([], s)
  | n + 1, s =>
    let v := s % 2 ^ k
    let rec2 := takeBitsList k n (s / 2 ^ k)
    (v :: rec2.1, rec2.2)

/-- Sequential index reads with the given per-texel bit widths
(the `take_bits` loop over the texels in src/bc7/decode.rs). -/
def readIndices : List Nat → Nat → List Nat
  | [], _ => []
  | w :: ws, s => s % 2 ^ w :: readIndices ws (s / 2 ^ w)

/-- Rust `u8` left shift: shifts and truncates to 8 bits. -/
def u8shl (x n : Nat) : Nat := x * 2 ^ n % 256

/-- Endpoint expansion step 2 and 3 of the BC7 decoder: shift a `k`-bit
value to the top of a byte and replicate its high bits into the low bits
(`.map(|x| x << (8 - k)).map(|x| x | x >> k)` in src/bc7/decode.rs). -/
def expandBits (k x : Nat) : Nat :=
  let y := u8shl x (8 - k)
  y ||| y / 2 ^ k

/-- Weight table for 2-bit indices (src/bc7.rs `WEIGHT2`). -/
def WEIGHT2 : List Nat := [0, 21, 43, 64]

/-- Weight table for 3-bit indices (src/bc7.rs `WEIGHT3`). -/
def WEIGHT3 : List Nat := [0, 9, 18, 27, 37, 46, 55, 64]

/-- Weight table for 4-bit indices (src/bc7.rs `WEIGHT4`). -/
def WEIGHT4 : List Nat :=
  [0, 4, 9, 13, 17, 21, 26, 30, 34, 38, 43, 47, 51, 55, 60, 64]

/-- src/bc7.rs `WEIGHTS`. -/
def WEIGHTS : List (List Nat) := [WEIGHT2, WEIGHT3, WEIGHT4]

/-- src/bc7.rs `interpolate`: convex combination of two endpoints in 64ths,
with the final `as u8` cast modelled by `% 256`. -/
def interpolate (bits a b index : Nat) : Nat :=
  let w := (WEIGHTS.getD (bits - 2) []).getD index 0
  ((64 - w) * a + w * b + 32) / 2 ^ 6 % 256

/-- Modelled from the spec: the fixed 64-row 2-subset partition table
`PARTITIONS_2` of the BC7 specification (spec §9 directs to embed the
standard constants literally; the module file holding the tables is not
among the provided sources). -/
def PARTITIONS_2 : List (List Nat) :=
  [[0, 0, 1, 1, 0, 0, 1, 1, 0, 0, 1, 1, 0, 0, 1, 1],
   [0, 0, 0, 1, 0, 0, 0, 1, 0, 0, 0, 1, 0, 0, 0, 1],
   [0, 1, 1, 1, 0, 1, 1, 1, 0, 1, 1, 1, 0, 1, 1, 1],
   [0, 0, 0, 1, 0, 0, 1, 1, 0, 0, 1, 1, 0, 1, 1, 1],
   [0, 0, 0, 0, 0, 0, 0, 1, 0, 0, 0, 1, 0, 0, 1, 1],
   [0, 0, 1, 1, 0, 1, 1, 1, 0, 1, 1, 1, 1, 1, 1, 1],
   [0, 0, 0, 1, 0, 0, 1, 1, 0, 1, 1, 1, 1, 1, 1, 1],
   [0, 0, 0, 0, 0, 0, 0, 1, 0, 0, 1, 1, 0, 1, 1, 1],
   [0, 0, 0, 0, 0, 0, 0, 0, 0, 0, 0, 1, 0, 0, 1, 1],
   [0, 0, 1, 1, 0, 1, 1, 1, 1, 1, 1, 1, 1, 1, 1, 1],
   [0, 0, 0, 0, 0, 0, 0, 1, 0, 1, 1, 1, 1, 1, 1, 1],
   [0, 0, 0, 0, 0, 0, 0, 0, 0, 0, 0, 1, 0, 1, 1, 1],
   [0, 0, 0, 1, 0, 1, 1, 1, 1, 1, 1, 1, 1, 1, 1, 1],
   [0, 0, 0, 0, 0, 0, 0, 0, 1, 1, 1, 1, 1, 1, 1, 1],
   [0, 0, 0, 0, 1, 1, 1, 1, 1, 1, 1, 1, 1, 1, 1, 1],
   [0, 0, 0, 0, 0, 0, 0, 0, 0, 0, 0, 0, 1, 1, 1, 1],
   [0, 0, 0, 0, 1, 0, 0, 0, 1, 1, 1, 0, 1, 1, 1, 1],
   [0, 1, 1, 1, 0, 0, 0, 1, 0, 0, 0, 0, 0, 0, 0, 0],
   [0, 0, 0, 0, 0, 0, 0, 0, 1, 0, 0, 0, 1, 1, 1, 0],
   [0, 1, 1, 1, 0, 0, 1, 1, 0, 0, 0, 1, 0, 0, 0, 0],
   [0, 0, 1, 1, 0, 0, 0, 1, 0, 0, 0, 0, 0, 0, 0, 0],
   [0, 0, 0, 0, 1, 0, 0, 0, 1, 1, 0, 0, 1, 1, 1, 0],
   [0, 0, 0, 0, 0, 0, 0, 0, 1, 0, 0, 0, 1, 1, 0, 0],
   [0, 1, 1, 1, 0, 0, 1, 1, 0, 0, 1, 1, 0, 0, 0, 1],
   [0, 0, 1, 1, 0, 0, 0, 1, 0, 0, 0, 1, 0, 0, 0, 0],
   [0, 0, 0, 0, 1, 0, 0, 0, 1, 0, 0, 0, 1, 1, 0, 0],
   [0, 1, 1, 0, 0, 1, 1, 0, 0, 1, 1, 0, 0, 1, 1, 0],
   [0, 0, 1, 1, 0, 1, 1, 0, 0, 1, 1, 0, 1, 1, 0, 0],
   [0, 0, 0, 1, 0, 1, 1, 1, 1, 1, 1, 0, 1, 0, 0, 0],
   [0, 0, 0, 0, 1, 1, 1, 1, 1, 1, 1, 1, 0, 0, 0, 0],
   [0, 1, 1, 1, 0, 0, 0, 1, 1, 0, 0, 0, 1, 1, 1, 0],
   [0, 0, 1, 1, 1, 0, 0, 1, 1, 0, 0, 1, 1, 1, 0, 0],
   [0, 1, 0, 1, 0, 1, 0, 1, 0, 1, 0, 1, 0, 1, 0, 1],
   [0, 0, 0, 0, 1, 1, 1, 1, 0, 0, 0, 0, 1, 1, 1, 1],
   [0, 1, 0, 1, 1, 0, 1, 0, 0, 1, 0, 1, 1, 0, 1, 0],
   [0, 0, 1, 1, 0, 0, 1, 1, 1, 1, 0, 0, 1, 1, 0, 0],
   [0, 0, 1, 1, 1, 1, 0, 0, 0, 0, 1, 1, 1, 1, 0, 0],
   [0, 1, 0, 1, 0, 1, 0, 1, 1, 0, 1, 0, 1, 0, 1, 0],
   [0, 1, 1, 0, 1, 0, 0, 1, 0, 1, 1, 0, 1, 0, 0, 1],
   [0, 1, 0, 1, 1, 0, 1, 0, 1, 0, 1, 0, 0, 1, 0, 1],
   [0, 1, 1, 1, 0, 0, 1, 1, 1, 1, 0, 0, 1, 1, 1, 0],
   [0, 0, 0, 1, 0, 0, 1, 1, 1, 1, 0, 0, 1, 0, 0, 0],
   [0, 0, 1, 1, 0, 0, 1, 0, 0, 1, 0, 0, 1, 1, 0, 0],
   [0, 0, 1, 1, 1, 0, 1, 1, 1, 1, 0, 1, 1, 1, 0, 0],
   [0, 1, 1, 0, 1, 0, 0, 1, 1, 0, 0, 1, 0, 1, 1, 0],
   [0, 0, 1, 1, 1, 1, 0, 0, 1, 1, 0, 0, 0, 0, 1, 1],
   [0, 1, 1, 0, 0, 1, 1, 0, 1, 0, 0, 1, 1, 0, 0, 1],
   [0, 0, 0, 0, 0, 1, 1, 0, 0, 1, 1, 0, 0, 0, 0, 0],
   [0, 1, 0, 0, 1, 1, 1, 0, 0, 1, 0, 0, 0, 0, 0, 0],
   [0, 0, 1, 0, 0, 1, 1, 1, 0, 0, 1, 0, 0, 0, 0, 0],
   [0, 0, 0, 0, 0, 0, 1, 0, 0, 1, 1, 1, 0, 0, 1, 0],
   [0, 0, 0, 0, 0, 1, 0, 0, 1, 1, 1, 0, 0, 1, 0, 0],
   [0, 1, 1, 0, 1, 1, 0, 0, 1, 0, 0, 1, 0, 0, 1, 1],
   [0, 0, 1, 1, 0, 1, 1, 0, 1, 1, 0, 0, 1, 0, 0, 1],
   [0, 1, 1, 0, 0, 0, 1, 1, 1, 0, 0, 1, 1, 1, 0, 0],
   [0, 0, 1, 1, 1, 0, 0, 1, 1, 1, 0, 0, 0, 1, 1, 0],
   [0, 1, 1, 0, 1, 1, 0, 0, 1, 1, 0, 0, 1, 0, 0, 1],
   [0, 1, 1, 0, 0, 0, 1, 1, 0, 0, 1, 1, 1, 0, 0, 1],
   [0, 1, 1, 1, 1, 1, 1, 0, 1, 0, 0, 0, 0, 0, 0, 1],
   [0, 0, 0, 1, 1, 0, 0, 0, 1, 1, 1, 0, 0, 1, 1, 1],
   [0, 0, 0, 0, 1, 1, 1, 1, 0, 0, 1, 1, 0, 0, 1, 1],
   [0, 0, 1, 1, 0, 0, 1, 1, 1, 1, 1, 1, 0, 0, 0, 0],
   [0, 0, 1, 0, 0, 0, 1, 0, 1, 1, 1, 0, 1, 1, 1, 0],
   [0, 1, 0, 0, 0, 1, 0, 0, 1, 1, 1, 0, 1, 1, 1, 0]]

/-- Modelled from the spec: the fixed 64-row 3-subset partition table
`PARTITIONS_3` of the BC7 specification (spec §9; the module file holding
the tables is not among the provided sources). -/
def PARTITIONS_3 : List (List Nat) :=
  [[0, 0, 1, 1, 0, 0, 1, 1, 0, 2, 2, 1, 2, 2, 2, 2],
   [0, 0, 0, 1, 0, 0, 1, 1, 2, 2, 1, 1, 2, 2, 2, 1],
   [0, 0, 0, 0, 2, 0, 0, 1, 2, 2, 1, 1, 2, 2, 1, 1],
   [0, 2, 2, 2, 0, 0, 2, 2, 0, 0, 1, 1, 0, 1, 1, 1],
   [0, 0, 0, 0, 0, 0, 0, 0, 1, 1, 2, 2, 1, 1, 2, 2],
   [0, 0, 1, 1, 0, 0, 1, 1, 0, 0, 2, 2, 0, 0, 2, 2],
   [0, 0, 2, 2, 0, 0, 2, 2, 1, 1, 1, 1, 1, 1, 1, 1],
   [0, 0, 1, 1, 0, 0, 1, 1, 2, 2, 1, 1, 2, 2, 1, 1],
   [0, 0, 0, 0, 0, 0, 0, 0, 1, 1, 1, 1, 2, 2, 2, 2],
   [0, 0, 0, 0, 1, 1, 1, 1, 1, 1, 1, 1, 2, 2, 2, 2],
   [0, 0, 0, 0, 1, 1, 1, 1, 2, 2, 2, 2, 2, 2, 2, 2],
   [0, 0, 1, 2, 0, 0, 1, 2, 0, 0, 1, 2, 0, 0, 1, 2],
   [0, 1, 1, 2, 0, 1, 1, 2, 0, 1, 1, 2, 0, 1, 1, 2],
   [0, 1, 2, 2, 0, 1, 2, 2, 0, 1, 2, 2, 0, 1, 2, 2],
   [0, 0, 1, 1, 0, 1, 1, 2, 1, 1, 2, 2, 1, 2, 2, 2],
   [0, 0, 1, 1, 2, 0, 0, 1, 2, 2, 0, 0, 2, 2, 2, 0],
   [0, 0, 0, 1, 0, 0, 1, 1, 0, 1, 1, 2, 1, 1, 2, 2],
   [0, 1, 1, 1, 0, 0, 1, 1, 2, 0, 0, 1, 2, 2, 0, 0],
   [0, 0, 0, 0, 1, 1, 2, 2, 1, 1, 2, 2, 1, 1, 2, 2],
   [0, 0, 2, 2, 0, 0, 2, 2, 0, 0, 2, 2, 1, 1, 1, 1],
   [0, 1, 1, 1, 0, 1, 1, 1, 0, 2, 2, 2, 0, 2, 2, 2],
   [0, 0, 0, 1, 0, 0, 0, 1, 2, 2, 2, 1, 2, 2, 2, 1],
   [0, 0, 0, 0, 0, 0, 1, 1, 0, 1, 2, 2, 0, 1, 2, 2],
   [0, 0, 0, 0, 1, 1, 0, 0, 2, 2, 1, 0, 2, 2, 1, 0],
   [0, 1, 2, 2, 0, 1, 2, 2, 0, 0, 1, 1, 0, 0, 0, 0],
   [0, 0, 1, 2, 0, 0, 1, 2, 1, 1, 2, 2, 2, 2, 2, 2],
   [0, 1, 1, 0, 1, 2, 2, 1, 1, 2, 2, 1, 0, 1, 1, 0],
   [0, 0, 0, 0, 0, 1, 1, 0, 1, 2, 2, 1, 1, 2, 2, 1],
   [0, 0, 2, 2, 1, 1, 0, 2, 1, 1, 0, 2, 0, 0, 2, 2],
   [0, 1, 1, 0, 0, 1, 1, 0, 2, 0, 0, 2, 2, 2, 2, 2],
   [0, 0, 1, 1, 0, 1, 2, 2, 0, 1, 2, 2, 0, 0, 1, 1],
   [0, 0, 0, 0, 2, 0, 0, 0, 2, 2, 1, 1, 2, 2, 2, 1],
   [0, 0, 0, 0, 0, 0, 0, 2, 1, 1, 2, 2, 1, 2, 2, 2],
   [0, 2, 2, 2, 0, 0, 2, 2, 0, 0, 1, 2, 0, 0, 1, 1],
   [0, 0, 1, 1, 0, 0, 1, 2, 0, 0, 2, 2, 0, 2, 2, 2],
   [0, 1, 2, 0, 0, 1, 2, 0, 0, 1, 2, 0, 0, 1, 2, 0],
   [0, 0, 0, 0, 1, 1, 1, 1, 2, 2, 2, 2, 0, 0, 0, 0],
   [0, 1, 2, 0, 1, 2, 0, 1, 2, 0, 1, 2, 0, 1, 2, 0],
   [0, 1, 2, 0, 2, 0, 1, 2, 1, 2, 0, 1, 0, 1, 2, 0],
   [0, 0, 1, 1, 2, 2, 0, 0, 1, 1, 2, 2, 0, 0, 1, 1],
   [0, 0, 1, 1, 1, 1, 2, 2, 2, 2, 0, 0, 0, 0, 1, 1],
   [0, 1, 0, 1, 0, 1, 0, 1, 2, 2, 2, 2, 2, 2, 2, 2],
   [0, 0, 0, 0, 0, 0, 0, 0, 2, 1, 2, 1, 2, 1, 2, 1],
   [0, 0, 2, 2, 1, 1, 2, 2, 0, 0, 2, 2, 1, 1, 2, 2],
   [0, 0, 2, 2, 0, 0, 1, 1, 0, 0, 2, 2, 0, 0, 1, 1],
   [0, 2, 2, 0, 1, 2, 2, 1, 0, 2, 2, 0, 1, 2, 2, 1],
   [0, 1, 0, 1, 2, 2, 2, 2, 2, 2, 2, 2, 2, 2, 2, 2],
   [0, 0, 0, 0, 2, 1, 2, 1, 2, 1, 2, 1, 2, 1, 2, 1],
   [0, 1, 1, 1, 2, 0, 1, 1, 2, 2, 0, 1, 2, 2, 2, 0],
   [0, 0, 1, 1, 0, 0, 1, 2, 2, 2, 1, 2, 2, 2, 2, 1],
   [0, 0, 2, 2, 0, 0, 2, 2, 2, 2, 1, 2, 2, 2, 2, 1],
   [0, 2, 2, 2, 0, 2, 2, 2, 0, 1, 2, 2, 0, 1, 1, 1],
   [0, 0, 0, 1, 0, 0, 0, 1, 2, 2, 2, 1, 2, 2, 2, 1],
   [0, 0, 0, 0, 0, 0, 0, 1, 2, 2, 2, 1, 2, 2, 2, 1],
   [0, 2, 2, 2, 0, 1, 2, 2, 0, 1, 1, 1, 0, 0, 1, 1],
   [0, 0, 0, 2, 0, 0, 1, 2, 0, 1, 1, 2, 2, 2, 2, 2],
   [0, 1, 1, 0, 1, 2, 2, 1, 1, 2, 2, 1, 0, 1, 1, 0],
   [0, 0, 0, 0, 0, 1, 1, 0, 1, 2, 2, 1, 1, 2, 2, 1],
   [0, 1, 1, 0, 0, 1, 1, 0, 2, 1, 1, 2, 2, 1, 1, 2],
   [0, 0, 2, 2, 0, 0, 1, 1, 0, 0, 2, 2, 0, 0, 1, 1],
   [0, 0, 2, 2, 1, 1, 2, 2, 1, 1, 2, 2, 0, 0, 2, 2],
   [0, 0, 0, 0, 0, 0, 0, 0, 0, 0, 0, 0, 2, 1, 1, 2],
   [0, 0, 0, 2, 0, 0, 0, 1, 0, 0, 0, 2, 0, 0, 0, 1],
   [0, 2, 2, 2, 1, 2, 2, 2, 0, 2, 2, 2, 1, 2, 2, 2]]

/-- Modelled from the spec: the fixed 64-entry second-subset anchor table
`ANCHOR_INDEX_2` of the BC7 specification (spec §4.2 and §9; the module
file holding the tables is not among the provided sources). -/
def ANCHOR_INDEX_2 : List Nat :=
  [15, 15, 15, 15, 15, 15, 15, 15,
   15, 15, 15, 15, 15, 15, 15, 15,
   15, 2, 8, 2, 2, 8, 8, 15,
   2, 8, 2, 2, 8, 8, 2, 2,
   15, 15, 6, 8, 2, 8, 15, 15,
   2, 8, 2, 2, 2, 15, 15, 6,
   6, 2, 6, 8, 15, 15, 2, 2,
   15, 15, 15, 15, 15, 2, 2, 15]

/-- One decoded texel: an RGBA8 pixel, each channel a byte
(`image::Rgba<u8>` in the source). -/
structure Texel where
  r : Nat
  g : Nat
  b : Nat
  a : Nat
  deriving DecidableEq, Repr, Inhabited

/-- src/bc7.rs `Rotation::apply`: swap one colour channel with alpha.
The rotation is carried as the raw 2-bit field value. -/
def rotApply (rot : Nat) (t : Texel) : Texel :=
  match rot with
  | 1 => ⟨t.a, t.g, t.b, t.r⟩
  | 2 => ⟨t.r, t.a, t.b, t.g⟩
  | 3 => ⟨t.r, t.g, t.a, t.b⟩
  | _ => t

/-- src/bc7.rs `Block0` with its field reader (src/bc7/decode.rs). -/
structure Block0 where
  partition : Nat
  r : List Nat
  g : List Nat
  b : List Nat
  p : List Nat
  index_data : Nat

def Block0.decode (block : Nat) : Block0 :=
  let s := block / 2 ^ 1
  let partition := s % 2 ^ 4
  let s := s / 2 ^ 4
  let (r, s) := takeBitsList 4 6 s
  let (g, s) := takeBitsList 4 6 s
  let (b, s) := takeBitsList 4 6 s
  let (p, s) := takeBitsList 1 6 s
  ⟨partition, r, g, b, p, s % 2 ^ 45⟩

/-- src/bc7.rs `Block1` with its field reader (src/bc7/decode.rs). -/
structure Block1 where
  partition : Nat
  r : List Nat
  g : List Nat
  b : List Nat
  p : List Nat
  index_data : Nat

def Block1.decode (block : Nat) : Block1 :=
  let s := block / 2 ^ 2
  let partition := s % 2 ^ 6
  let s := s / 2 ^ 6
  let (r, s) := takeBitsList 6 4 s
  let (g, s) := takeBitsList 6 4 s
  let (b, s) := takeBitsList 6 4 s
  let (p, s) := takeBitsList 1 2 s
  ⟨partition, r, g, b, p, s % 2 ^ 46⟩

/-- src/bc7.rs `Block2` with its field reader (src/bc7/decode.rs). -/
structure Block2 where
  partition : Nat
  r : List Nat
  g : List Nat
  b : List Nat
  index_data : Nat

def Block2.decode (block : Nat) : Block2 :=
  let s := block / 2 ^ 3
  let partition := s % 2 ^ 6
  let s := s / 2 ^ 6
  let (r, s) := takeBitsList 5 6 s
  let (g, s) := takeBitsList 5 6 s
  let (b, s) := takeBitsList 5 6 s
  ⟨partition, r, g, b, s % 2 ^ 29⟩

/-- src/bc7.rs `Block3` with its field reader (src/bc7/decode.rs). -/
structure Block3 where
  partition : Nat
  r : List Nat
  g : List Nat
  b : List Nat
  p : List Nat
  index_data : Nat

def Block3.decode (block : Nat) : Block3 :=
  let s := block / 2 ^ 4
  let partition := s % 2 ^ 6
  let s := s / 2 ^ 6
  let (r, s) := takeBitsList 7 4 s
  let (g, s) := takeBitsList 7 4 s
  let (b, s) := takeBitsList 7 4 s
  let (p, s) := takeBitsList 1 4 s
  ⟨partition, r, g, b, p, s % 2 ^ 30⟩

/-- src/bc7.rs `Block4` with its field reader (src/bc7/decode.rs); the
rotation is kept as the raw 2-bit value. -/
structure Block4 where
  rot : Nat
  idx_mode : Bool
  r : List Nat
  g : List Nat
  b : List Nat
  a : List Nat
  index_data0 : Nat
  index_data1 : Nat

def Block4.decode (block : Nat) : Block4 :=
  let s := block / 2 ^ 5
  let rot := s % 2 ^ 2
  let s := s / 2 ^ 2
  let idx_mode := s % 2 ^ 1 ≠ 0
  let s := s / 2 ^ 1
  let (r, s) := takeBitsList 5 2 s
  let (g, s) := takeBitsList 5 2 s
  let (b, s) := takeBitsList 5 2 s
  let (a, s) := takeBitsList 6 2 s
  let index_data0 := s % 2 ^ 31
  let s := s / 2 ^ 31
  ⟨rot, idx_mode, r, g, b, a, index_data0, s % 2 ^ 47⟩

/-- src/bc7.rs `Block5` with its field reader (src/bc7/decode.rs). -/
structure Block5 where
  rot : Nat
  r : List Nat
  g : List Nat
  b : List Nat
  a : List Nat
  colors : Nat
  alpha : Nat

def Block5.decode (block : Nat) : Block5 :=
  let s := block / 2 ^ 6
  let rot := s % 2 ^ 2
  let s := s / 2 ^ 2
  let (r, s) := takeBitsList 7 2 s
  let (g, s) := takeBitsList 7 2 s
  let (b, s) := takeBitsList 7 2 s
  let (a, s) := takeBitsList 8 2 s
  let colors := s % 2 ^ 31
  let s := s / 2 ^ 31
  ⟨rot, r, g, b, a, colors, s % 2 ^ 31⟩

/-- src/bc7.rs `Block6` with its field reader (src/bc7/decode.rs). -/
structure Block6 where
  r : List Nat
  g : List Nat
  b : List Nat
  a : List Nat
  p : List Nat
  index_data : Nat

def Block6.decode (block : Nat) : Block6 :=
  let s := block / 2 ^ 7
  let (r, s) := takeBitsList 7 2 s
  let (g, s) := takeBitsList 7 2 s
  let (b, s) := takeBitsList 7 2 s
  let (a, s) := takeBitsList 7 2 s
  let (p, s) := takeBitsList 1 2 s
  ⟨r, g, b, a, p, s % 2 ^ 63⟩

/-- src/bc7.rs `Block7` with its field reader (src/bc7/decode.rs). -/
structure Block7 where
  partition : Nat
  r : List Nat
  g : List Nat
  b : List Nat
  a : List Nat
  p : List Nat
  index_data : Nat

def Block7.decode (block : Nat) : Block7 :=
  let s := block / 2 ^ 8
  let partition := s % 2 ^ 6
  let s := s / 2 ^ 6
  let (r, s) := takeBitsList 5 4 s
  let (g, s) := takeBitsList 5 4 s
  let (b, s) := takeBitsList 5 4 s
  let (a, s) := takeBitsList 5 4 s
  let (p, s) := takeBitsList 1 4 s
  ⟨partition, r, g, b, a, p, s % 2 ^ 30⟩

/-- Mode-0 arm of src/bc7/decode.rs `decode_bc7_block`: 3 subsets via
`PARTITIONS_3`, per-endpoint p-bits, 8-entry palettes built with the 3-bit
weight table, and a plain 2-bit index read per texel (the source reads no
anchor-reduced indices in this mode). -/
def decodeMode0 (block : Nat) : List Texel :=
  let d := Block0.decode block
  let e := fun (sub i : Nat) (ch : List Nat) =>
    expandBits 5 (u8shl (ch.getD (2 * sub + i) 0) 1 ||| d.p.getD (2 * sub + i) 0)
  let pal := fun (sub idx : Nat) (ch : List Nat) =>
    interpolate 3 (e sub 0 ch) (e sub 1 ch) idx
  let idxs := readIndices (List.replicate 16 2) d.index_data
  (List.range 16).map fun i =>
    let sub := (PARTITIONS_3.getD d.partition []).getD i 0
    let idx := idxs.getD i 0
    ⟨pal sub idx d.r, pal sub idx d.g, pal sub idx d.b, 255⟩

/-- Mode-1 arm of src/bc7/decode.rs `decode_bc7_block`: 2 subsets via
`PARTITIONS_2`, shared per-subset p-bits, 3-bit weight table, and a plain
3-bit index read per texel. -/
def decodeMode1 (block : Nat) : List Texel :=
  let d := Block1.decode block
  let e := fun (sub i : Nat) (ch : List Nat) =>
    expandBits 7 (u8shl (ch.getD (2 * sub + i) 0) 1 ||| d.p.getD sub 0)
  let pal := fun (sub idx : Nat) (ch : List Nat) =>
    interpolate 3 (e sub 0 ch) (e sub 1 ch) idx
  let idxs := readIndices (List.replicate 16 3) d.index_data
  (List.range 16).map fun i =>
    let sub := (PARTITIONS_2.getD d.partition []).getD i 0
    let idx := idxs.getD i 0
    ⟨pal sub idx d.r, pal sub idx d.g, pal sub idx d.b, 255⟩

/-- Collect the texels produced by `f` at the given positions; `none` as
soon as one position panics (a failed array access in the source aborts
the whole decode). -/
def optTexels (f : Nat → Option Texel) : List Nat → Option (List Texel)
  | [] => some []
  | i :: is =>
    match f i with
    | none => none
    | some t =>
      match optTexels f is with
      | none => none
      | some ts => some (t :: ts)

/-- Mode-2 arm of src/bc7/decode.rs `decode_bc7_block`: 3 subsets via
`PARTITIONS_3`, no p-bits, 2-bit weight table, plain 2-bit index read.
The source materialises only two 4-entry palettes (`[[Rgb<u8>; 4]; 2]`)
but looks texels up at `subsets[PARTITIONS_3[partition][i]]`, whose
subset id reaches 2; that out-of-bounds access is a panic, modelled by
the checked `List.get?` lookup. -/
def decodeMode2 (block : Nat) : Option (List Texel) :=
  let d := Block2.decode block
  let e := fun (sub i : Nat) (ch : List Nat) => expandBits 5 (ch.getD (2 * sub + i) 0)
  let row := fun (sub : Nat) =>
    (List.range 4).map fun idx =>
      (interpolate 2 (e sub 0 d.r) (e sub 1 d.r) idx,
       interpolate 2 (e sub 0 d.g) (e sub 1 d.g) idx,
       interpolate 2 (e sub 0 d.b) (e sub 1 d.b) idx)
  let subsets := [row 0, row 1]
  let idxs := readIndices (List.replicate 16 2) d.index_data
  optTexels
    (fun i =>
      match subsets.get? ((PARTITIONS_3.getD d.partition []).getD i 0) with
      | none => none
      | some r =>
        let c := r.getD (idxs.getD i 0) (0, 0, 0)
        some ⟨c.1, c.2.1, c.2.2, 255⟩)
    (List.range 16)

/-- RGB endpoint `index` of the mode-3 arm's eager palette construction:
the source reads `data.r[index]`, `data.g[index]`, `data.b[index]` and
`data.p[index]` (panicking when `index` is out of bounds, hence the
checked `List.get?`) and appends the p-bit to each 7-bit channel. -/
def endpointRgb3 (d : Block3) (index : Nat) : Option (Nat × Nat × Nat) :=
  match d.r.get? index with
  | none => none
  | some rv =>
    match d.g.get? index with
    | none => none
    | some gv =>
      match d.b.get? index with
      | none => none
      | some bv =>
        match d.p.get? index with
        | none => none
        | some pv =>
          some (u8shl rv 1 ||| pv, u8shl gv 1 ||| pv, u8shl bv 1 ||| pv)

/-- Subset row `sub` of the mode-3 arm's eager palette: endpoints
`2 * sub` and `2 * sub + 1`, interpolated through the 3-bit weight table
into an 8-entry row (the source's `[[Rgb<u8>; 8]; 3]` element). -/
def subsetRow3 (d : Block3) (sub : Nat) : Option (List (Nat × Nat × Nat)) :=
  match endpointRgb3 d (2 * sub) with
  | none => none
  | some e0 =>
    match endpointRgb3 d (2 * sub + 1) with
    | none => none
    | some e1 =>
      some ((List.range 8).map fun idx =>
        (interpolate 3 e0.1 e1.1 idx, interpolate 3 e0.2.1 e1.2.1 idx,
         interpolate 3 e0.2.2 e1.2.2 idx))

/-- Mode-3 arm of src/bc7/decode.rs `decode_bc7_block`: before any texel
is decoded the source eagerly builds a 3-subset palette
(`[[Rgb<u8>; 8]; 3]`) from `Block3`, whose endpoint arrays hold only 4
elements, so subset 2 reads `data.r[4]` and panics; the checked reads of
`subsetRow3` model the panic.  Were the palette built, the texel loop
would use 2 subsets via `PARTITIONS_2` and a plain 2-bit index read. -/
def decodeMode3 (block : Nat) : Option (List Texel) :=
  let d := Block3.decode block
  match subsetRow3 d 0 with
  | none => none
  | some s0 =>
    match subsetRow3 d 1 with
    | none => none
    | some s1 =>
      match subsetRow3 d 2 with
      | none => none
      | some s2 =>
        let subsets := [s0, s1, s2]
        let idxs := readIndices (List.replicate 16 2) d.index_data
        some ((List.range 16).map fun i =>
          let sub := (PARTITIONS_2.getD d.partition []).getD i 0
          let c := (subsets.getD sub []).getD (idxs.getD i 0) (0, 0, 0)
          ⟨c.1, c.2.1, c.2.2, 255⟩)

/-- Mode-4 arm of src/bc7/decode.rs `decode_bc7_block`: one subset, two
index planes selected by `idx_mode`, texel 0 read with one fewer bit in
both planes, rotation applied last. -/
def decodeMode4 (block : Nat) : List Texel :=
  let d := Block4.decode block
  let e := fun (i : Nat) (ch : List Nat) => expandBits 5 (ch.getD i 0)
  if d.idx_mode then
    let col := fun (idx : Nat) (ch : List Nat) => interpolate 3 (e 0 ch) (e 1 ch) idx
    let av := fun (i : Nat) => expandBits 6 (d.a.getD i 0)
    let alpha := fun (idx : Nat) => interpolate 2 (av 0) (av 1) idx
    let cIdxs := readIndices (2 :: List.replicate 15 3) d.index_data1
    let aIdxs := readIndices (1 :: List.replicate 15 2) d.index_data0
    (List.range 16).map fun i =>
      rotApply d.rot
        ⟨col (cIdxs.getD i 0) d.r, col (cIdxs.getD i 0) d.g,
         col (cIdxs.getD i 0) d.b, alpha (aIdxs.getD i 0)⟩
  else
    let col := fun (idx : Nat) (ch : List Nat) => interpolate 2 (e 0 ch) (e 1 ch) idx
    let alpha := fun (idx : Nat) => interpolate 3 (d.a.getD 0 0) (d.a.getD 1 0) idx
    let cIdxs := readIndices (1 :: List.replicate 15 2) d.index_data0
    let aIdxs := readIndices (2 :: List.replicate 15 3) d.index_data1
    (List.range 16).map fun i =>
      rotApply d.rot
        ⟨col (cIdxs.getD i 0) d.r, col (cIdxs.getD i 0) d.g,
         col (cIdxs.getD i 0) d.b, alpha (aIdxs.getD i 0)⟩

/-- Mode-5 arm of src/bc7/decode.rs `decode_bc7_block`: one subset, 7-bit
colour endpoints expanded, raw 8-bit alpha endpoints, separate 2-bit colour
and alpha index streams with texel 0 read with one bit, rotation last. -/
def decodeMode5 (block : Nat) : List Texel :=
  let d := Block5.decode block
  let e := fun (i : Nat) (ch : List Nat) => expandBits 7 (ch.getD i 0)
  let col := fun (idx : Nat) (ch : List Nat) => interpolate 2 (e 0 ch) (e 1 ch) idx
  let alpha := fun (idx : Nat) => interpolate 2 (d.a.getD 0 0) (d.a.getD 1 0) idx
  let cIdxs := readIndices (1 :: List.replicate 15 2) d.colors
  let aIdxs := readIndices (1 :: List.replicate 15 2) d.alpha
  (List.range 16).map fun i =>
    rotApply d.rot
      ⟨col (cIdxs.getD i 0) d.r, col (cIdxs.getD i 0) d.g,
       col (cIdxs.getD i 0) d.b, alpha (aIdxs.getD i 0)⟩

/-- Mode-6 arm of src/bc7/decode.rs `decode_bc7_block`: one subset, RGBA
endpoints with per-endpoint p-bit, 4-bit weight table, texel 0 read with
3 bits. -/
def decodeMode6 (block : Nat) : List Texel :=
  let d := Block6.decode block
  let e := fun (i : Nat) (ch : List Nat) => u8shl (ch.getD i 0) 1 ||| d.p.getD i 0
  let pal := fun (idx : Nat) (ch : List Nat) => interpolate 4 (e 0 ch) (e 1 ch) idx
  let idxs := readIndices (3 :: List.replicate 15 4) d.index_data
  (List.range 16).map fun i =>
    ⟨pal (idxs.getD i 0) d.r, pal (idxs.getD i 0) d.g,
     pal (idxs.getD i 0) d.b, pal (idxs.getD i 0) d.a⟩

/-- Index width used by the mode-7 arm for texel `i` of a block with the
given partition value: the source reads one bit when
`i == 0 || i == ANCHOR_INDEX_2[subset]` (note: indexed by the texel's
subset, not by the partition), else two bits. -/
def mode7IndexWidth (partition i : Nat) : Nat :=
  let subset := (PARTITIONS_2.getD partition []).getD i 0
  if i = 0 ∨ i = ANCHOR_INDEX_2.getD subset 0 then 1 else 2

/-- Mode-7 arm of src/bc7/decode.rs `decode_bc7_block`: 2 subsets via
`PARTITIONS_2`, RGBA 5-bit endpoints with per-endpoint p-bit expanded to
bytes, 2-bit weight table, index widths per `mode7IndexWidth`. -/
def decodeMode7 (block : Nat) : List Texel :=
  let d := Block7.decode block
  let e := fun (sub i : Nat) (ch : List Nat) =>
    expandBits 6 (u8shl (ch.getD (2 * sub + i) 0) 1 ||| d.p.getD (2 * sub + i) 0)
  let pal := fun (sub idx : Nat) (ch : List Nat) =>
    interpolate 2 (e sub 0 ch) (e sub 1 ch) idx
  let idxs := readIndices ((List.range 16).map (mode7IndexWidth d.partition)) d.index_data
  (List.range 16).map fun i =>
    let sub := (PARTITIONS_2.getD d.partition []).getD i 0
    let idx := idxs.getD i 0
    ⟨pal sub idx d.r, pal sub idx d.g, pal sub idx d.b, pal sub idx d.a⟩

/-- Trailing-zero count of a 128-bit value, by fuelled binary recursion;
`u128::trailing_zeros(0) = 128`. -/
def u128TrailingZerosAux : Nat → Nat → Nat
  | 0, _ => 0
  | fuel + 1, b => if b % 2 = 1 then 0 else u128TrailingZerosAux fuel (b / 2) + 1

/-- Rust `block.trailing_zeros()` on a `u128`. -/
def u128TrailingZeros (b : Nat) : Nat := u128TrailingZerosAux 128 b

/-- The all-transparent texel `(0,0,0,0)`. -/
def zeroTexel : Texel := ⟨0, 0, 0, 0⟩

/-- src/bc7/decode.rs `decode_bc7_block`: dispatch on the unary mode
prefix (number of trailing zeros); modes 8 and above (all-zero low byte)
decode to the all-transparent tile.  The 4×4 tile is represented
row-major as a flat list of 16 texels; `none` models a panic (the mode-2
and mode-3 arms index out of bounds, see `decodeMode2`/`decodeMode3`). -/
def decode_bc7_block (block : Nat) : Option (List Texel) :=
  let mode := u128TrailingZeros block
  if mode = 0 then some (decodeMode0 block)
  else if mode = 1 then some (decodeMode1 block)
  else if mode = 2 then decodeMode2 block
  else if mode = 3 then decodeMode3 block
  else if mode = 4 then some (decodeMode4 block)
  else if mode = 5 then some (decodeMode5 block)
  else if mode = 6 then some (decodeMode6 block)
  else if mode = 7 then some (decodeMode7 block)
  else some (List.replicate 16 zeroTexel)

/-- src/bc7/encode.rs `put_bits`: left-shift the 128-bit destination by
`k` (truncating) and OR in the low `k` bits of the value. -/
def putBits (k dest v : Nat) : Nat := dest * 2 ^ k % 2 ^ 128 ||| v % 2 ^ k

/-- src/bc7/encode.rs `put_bits_array_rev`: push the elements of the array
in reverse order, `k` bits each. -/
def putBitsListRev (k : Nat) (dest : Nat) (arr : List Nat) : Nat :=
  arr.reverse.foldl (putBits k) dest

/-- src/bc7/encode.rs `Block5::encode` (the encoding-side `Block5` carries
the two index streams as `color_index_data`/`alpha_index_data`; they are the
`colors`/`alpha` fields here). -/
def Block5.encode (bl : Block5) : Nat :=
  let x := putBits 31 0 bl.alpha
  let x := putBits 31 x bl.colors
  let x := putBitsListRev 8 x bl.a
  let x := putBitsListRev 7 x bl.b
  let x := putBitsListRev 7 x bl.g
  let x := putBitsListRev 7 x bl.r
  let x := putBits 2 x bl.rot
  let x := putBits 1 x 1
  x * 2 ^ 5 % 2 ^ 128

/-- src/bc7/encode.rs `Block6::encode`. -/
def Block6.encode (bl : Block6) : Nat :=
  let x := putBits 63 0 bl.index_data
  let x := putBitsListRev 1 x bl.p
  let x := putBitsListRev 7 x bl.a
  let x := putBitsListRev 7 x bl.b
  let x := putBitsListRev 7 x bl.g
  let x := putBitsListRev 7 x bl.r
  let x := putBits 1 x 1
  x * 2 ^ 6 % 2 ^ 128

/-- src/bc7/encode.rs `encode_bc7_block`: an all-transparent tile is
emitted as the canonical zero mode-5 block; otherwise a placeholder
mode-6 block is emitted whose alpha endpoints depend on whether any pixel
is translucent. -/
def encode_bc7_block (tile : List Texel) : Nat :=
  if tile.all fun t => t.a == 0 then
    Block5.encode ⟨0, [0, 0], [0, 0], [0, 0], [0, 0], 0, 0⟩
  else if tile.any fun t => t.a != 255 then
    Block6.encode ⟨[0x7f, 0x7f], [0, 0], [0x7f, 0x7f], [0x1f, 0x1f], [1, 1], 0⟩
  else
    Block6.encode ⟨[0x7f, 0x7f], [0, 0], [0x7f, 0x7f], [0x7f, 0x7f], [1, 1], 0⟩

/-- Bit length of `n` (`fuel`-bounded binary recursion): the position of
the highest set bit plus one, with `bitLenAux fuel 0 = 0`. -/
def bitLenAux : Nat → Nat → Nat
  | 0, _ => 0
  | fuel + 1, n => if n = 0 then 0 else bitLenAux fuel (n / 2) + 1

/-- Rust `u32::leading_zeros`: 32 minus the bit length. -/
def u32LeadingZeros (n : Nat) : Nat := 32 - bitLenAux 32 n

/-- src/dds.rs `calculate_mipmap_count`:
`(32 - width.leading_zeros()).max(32 - height.leading_zeros())`. -/
def calculate_mipmap_count (width height : Nat) : Nat :=
  max (32 - u32LeadingZeros width) (32 - u32LeadingZeros height)

/-- One mipmap halving step of src/bc7/encode.rs `encode_bc7_with_encoder`:
`(w / 2).max(1)`. -/
def mipHalve (n : Nat) : Nat := max (n / 2) 1

/-- src/lib.rs `FileType` (the parse-side tag). -/
inductive FileType where
  | Image
  | Sound
  | Unknown
  deriving DecidableEq, Repr, Inhabited

/-- The tag match at the top of src/lib.rs `read_entry`:
`0 => Image, 1 => Sound, _ => Unknown`. -/
def parseFileType (t : Nat) : FileType :=
  if t = 0 then .Image else if t = 1 then .Sound else .Unknown

/-- src/lib.rs `DecodedEntry`.  The name is kept as its byte sequence
(the UTF-8 validation performed by `String::from_utf8` is not modelled). -/
structure DecodedEntry where
  name : List Nat
  file_type : FileType
  size : Nat
  offset : Nat
  size_decompressed : Nat
  width : Nat
  height : Nat
  unks : List (Nat × Nat)
  deriving DecidableEq, Repr, Inhabited

/-- src/lib.rs `Toc`. -/
structure Toc where
  entries : List DecodedEntry
  deriving DecidableEq, Repr, Inhabited

/-- `read_u32::<LE>()` on a byte stream: fails (I/O error) when fewer than
four bytes remain.  The stream is the list of not-yet-consumed bytes. -/
def readU32 : List Nat → Option (Nat × List Nat)
  | b0 :: b1 :: b2 :: b3 :: rest => some (b0 + 2 ^ 8 * b1 + 2 ^ 16 * b2 + 2 ^ 24 * b3, rest)
  | _ => none

/-- src/lib.rs `read_entry`: thirteen little-endian u32 fields followed by
the length-prefixed name. -/
def read_entry (s : List Nat) : Option (DecodedEntry × List Nat) := do
  let (ft, s) ← readU32 s
  let (szd, s) ← readU32 s
  let (sz, s) ← readU32 s
  let (u20, s) ← readU32 s
  let (u21, s) ← readU32 s
  let (u40, s) ← readU32 s
  let (u41, s) ← readU32 s
  let (u60, s) ← readU32 s
  let (u61, s) ← readU32 s
  let (w, s) ← readU32 s
  let (h, s) ← readU32 s
  let (off, s) ← readU32 s
  let (nlen, s) ← readU32 s
  if nlen ≤ s.length then
    some (⟨s.take nlen, parseFileType ft, sz, off, szd, w, h,
           [(u20, u21), (u40, u41), (u60, u61)]⟩, s.drop nlen)
  else none

/-- The entry-count loop of src/lib.rs `read_toc`. -/
def readEntries : Nat → List Nat → Option (List DecodedEntry)
  | 0, _ => some []
  | n + 1, s => do
    let (e, s2) ← read_entry s
    let es ← readEntries n s2
    some (e :: es)

/-- src/lib.rs `read_toc`: read the TOC offset at position 0, seek there,
read the entry count, then the entries.  Seeking is modelled by `drop` on
the full byte image. -/
def read_toc (data : List Nat) : Option Toc := do
  let (tocIdx, _) ← readU32 data
  let (cnt, s) ← readU32 (data.drop tocIdx)
  let es ← readEntries cnt s
  some ⟨es⟩

namespace Encoding

/-- src/encoding.rs `FileType` (the materialized write-side variant):
`Sound` stores no metadata. -/
inductive FileType where
  | Image (width : Nat) (height : Nat) (unks : List (Nat × Nat))
  | Sound
  deriving DecidableEq, Repr, Inhabited

/-- src/encoding.rs `Data`. -/
inductive Data where
  | Compressed (data : List Nat) (uncompressed_size : Nat)
  | Raw (d : List Nat)
  deriving DecidableEq, Repr, Inhabited

/-- src/encoding.rs `Entry`. -/
structure Entry where
  name : List Nat
  file_type : FileType
  data : Data
  deriving DecidableEq, Repr, Inhabited

/-- src/encoding.rs `Archive`. -/
structure Archive where
  entries : List Entry
  deriving DecidableEq, Repr, Inhabited

/-- The per-entry body of src/encoding.rs `Archive::from_file_and_toc`:
the `unimplemented!()` arm for `Unknown` is modelled as `none`, and the
seek/take/read of the payload as a `drop`/`take` slice of the file image. -/
def convEntry (file : List Nat) (e : DecodedEntry) : Option Entry :=
  match e.file_type with
  | .Image =>
    some ⟨e.name, .Image e.width e.height e.unks,
          .Compressed ((file.drop e.offset).take e.size) e.size_decompressed⟩
  | .Sound =>
    some ⟨e.name, .Sound,
          .Compressed ((file.drop e.offset).take e.size) e.size_decompressed⟩
  | .Unknown => none

/-- The entry loop of src/encoding.rs `Archive::from_file_and_toc`,
materializing the TOC entries in order and aborting at the first
`Unknown` entry. -/
def convEntries (file : List Nat) : List DecodedEntry → Option (List Entry)
  | [] => some []
  | e :: es => do
    let a ← convEntry file e
    let as2 ← convEntries file es
    some (a :: as2)

/-- src/encoding.rs `Archive::from_file_and_toc`. -/
def from_file_and_toc (file : List Nat) (toc : Toc) : Option Archive := do
  let es ← convEntries file toc.entries
  some ⟨es⟩

/-- src/encoding.rs `CompressedEntry`. -/
structure CompressedEntry where
  name : List Nat
  file_type : FileType
  data : List Nat
  uncompressed_size : Nat
  deriving DecidableEq, Repr, Inhabited

/-- The compression pass at the top of src/encoding.rs
`Archive::write_to_file`; `compress` stands for `lz4_flex::compress` and
the `as u32` cast of the raw length is `% 2 ^ 32`. -/
def toCompressed (compress : List Nat → List Nat) (e : Entry) : CompressedEntry :=
  match e.data with
  | .Compressed d us => ⟨e.name, e.file_type, d, us⟩
  | .Raw d => ⟨e.name, e.file_type, compress d, d.length % 2 ^ 32⟩

/-- src/encoding.rs `WrittenEntry`. -/
structure WrittenEntry where
  name : List Nat
  file_type : FileType
  uncompressed_size : Nat
  size : Nat
  offset : Nat
  deriving DecidableEq, Repr, Inhabited

/-- The payload-writing fold of src/encoding.rs `Archive::write_to_file`:
records each entry's size (`len as u32`) and the running offset
(u32 addition), starting at 4. -/
def writtenEntriesAux : List CompressedEntry → Nat → List WrittenEntry
  | [], _ => []
  | e :: es, off =>
    ⟨e.name, e.file_type, e.uncompressed_size, e.data.length % 2 ^ 32, off⟩ ::
      writtenEntriesAux es ((off + e.data.length % 2 ^ 32) % 2 ^ 32)

/-- `write_u32::<LE>` of a u32 value as four bytes. -/
def u32le (n : Nat) : List Nat :=
  [n % 2 ^ 8, n / 2 ^ 8 % 2 ^ 8, n / 2 ^ 16 % 2 ^ 8, n / 2 ^ 24 % 2 ^ 8]

/-- The `match entry.file_type` of the TOC-writing loop in
src/encoding.rs `Archive::write_to_file`: `(file_type_tag, width, height,
unks)`, with a `Sound` entry emitted as `(1, 0, 0, [(0, 0); 3])`. -/
def recordHeader (ft : FileType) : Nat × Nat × Nat × List (Nat × Nat) :=
  match ft with
  | .Image w h unks => (0, w, h, unks)
  | .Sound => (1, 0, 0, [(0, 0), (0, 0), (0, 0)])

/-- One TOC record as written by src/encoding.rs `Archive::write_to_file`. -/
def entryRecord (e : WrittenEntry) : List Nat :=
  let (tag, w, h, unks) := recordHeader e.file_type
  u32le tag ++ u32le e.uncompressed_size ++ u32le e.size ++
    (unks.map fun q => u32le q.1 ++ u32le q.2).flatten ++
    u32le w ++ u32le h ++ u32le e.offset ++
    u32le (e.name.length % 2 ^ 32) ++ e.name

/-- src/encoding.rs `Archive::write_to_file`, producing the byte image of
the output archive: header word `data_size + 4`, payloads in order, entry
count, TOC records.  `none` models the `try_into().unwrap()` panic when
the summed payload size exceeds `u32::MAX`. -/
def write_to_file (compress : List Nat → List Nat) (ar : Archive) : Option (List Nat) :=
  let ce := ar.entries.map (toCompressed compress)
  let dataSize := (ce.map fun e => e.data.length).sum
  if dataSize < 2 ^ 32 then
    let we := writtenEntriesAux ce 4
    some (u32le ((dataSize + 4) % 2 ^ 32) ++ (ce.map fun e => e.data).flatten ++
          u32le (we.length % 2 ^ 32) ++ (we.map entryRecord).flatten)
  else none

end Encoding

/-- Modelled from the spec: the anchor-adjusted mode-3 texel decode of
spec §4.2/§8 (for comparison with the source decoder): 2-bit indices with
the 2-bit weight table, the anchor texels (texel 0 and texel
`ANCHOR_INDEX_2[partition]`) read with one fewer bit, endpoints expanded
as 7 bits plus p-bit. -/
def specAnchoredMode3 (block : Nat) : List Texel :=
  let d := Block3.decode block
  let e := fun (sub i : Nat) (ch : List Nat) =>
    u8shl (ch.getD (2 * sub + i) 0) 1 ||| d.p.getD (2 * sub + i) 0
  let pal := fun (sub idx : Nat) (ch : List Nat) =>
    interpolate 2 (e sub 0 ch) (e sub 1 ch) idx
  let aw := fun (i : Nat) =>
    if i = 0 ∨ i = ANCHOR_INDEX_2.getD d.partition 0 then 1 else 2
  let idxs := readIndices ((List.range 16).map aw) d.index_data
  (List.range 16).map fun i =>
    let sub := (PARTITIONS_2.getD d.partition []).getD i 0
    let idx := idxs.getD i 0
    ⟨pal sub idx d.r, pal sub idx d.g, pal sub idx d.b, 255⟩

/-- A concrete mode-3 block: partition 0, first-subset endpoints 0 and
255 (r1 = g1 = b1 = 127 with p-bit 1), index bit 2 set. -/
def c2Block : Nat :=
  2 ^ 3 + 127 * 2 ^ 17 + 127 * 2 ^ 45 + 127 * 2 ^ 73 + 2 ^ 95 + 2 ^ 100

/-- Every texel of the tile is fully opaque. -/
def allAlpha255 (tile : List Texel) : Bool :=
  tile.all fun t => t.a == 255

/-- Every texel of the tile has a byte-ranged alpha. -/
def allAlphaLe255 (tile : List Texel) : Bool :=
  tile.all fun t => decide (t.a ≤ 255)

namespace Encoding

/-- Field bounds under which an in-memory entry serializes reversibly:
its data already compressed, and every u32-typed field in range. -/
def entryOk (e : Entry) : Bool :=
  (match e.data with
   | .Compressed _ us => decide (us < 2 ^ 32)
   | .Raw _ => false) &&
  decide (e.name.length < 2 ^ 32) &&
  (match e.file_type with
   | .Image w h unks =>
     decide (w < 2 ^ 32) && decide (h < 2 ^ 32) && decide (unks.length = 3) &&
       (unks.all fun q => decide (q.1 < 2 ^ 32) && decide (q.2 < 2 ^ 32))
   | .Sound => true)

/-- Payload byte count of an entry as held in memory. -/
def entryDataLen (e : Entry) : Nat :=
  match e.data with
  | .Compressed d _ => d.length
  | .Raw d => d.length

/-- Bounds under which an in-memory archive serializes reversibly. -/
def archiveOk (ar : Archive) : Bool :=
  ar.entries.all entryOk &&
  decide ((ar.entries.map entryDataLen).sum + 4 < 2 ^ 32) &&
  decide (ar.entries.length < 2 ^ 32)

/-- A well-formed archive file: the byte image of some bounded in-memory
archive under the canonical layout of `write_to_file` (payloads tightly
packed in entry order from offset 4, TOC right after, spec §4.5). -/
def WellFormed (bs : List Nat) : Prop :=
  ∃ ar, archiveOk ar = true ∧ write_to_file (fun d => d) ar = some bs

/-- The TOC entry that `read_entry` recovers from the record that
`write_to_file` emits for a given `WrittenEntry`. -/
def decodedOfWritten (e : WrittenEntry) : DecodedEntry :=
  match e.file_type with
  | .Image w h unks =>
    ⟨e.name, .Image, e.size, e.offset, e.uncompressed_size, w, h, unks⟩
  | .Sound =>
    ⟨e.name, .Sound, e.size, e.offset, e.uncompressed_size, 0, 0,
     [(0, 0), (0, 0), (0, 0)]⟩

/-- Field bounds of a written entry, as needed for its record to parse
back to itself. -/
def writtenOk (e : WrittenEntry) : Prop :=
  e.uncompressed_size < 2 ^ 32 ∧ e.size < 2 ^ 32 ∧ e.offset < 2 ^ 32 ∧
  e.name.length < 2 ^ 32 ∧
  (match e.file_type with
   | .Image w h unks =>
     w < 2 ^ 32 ∧ h < 2 ^ 32 ∧ unks.length = 3 ∧
       ∀ q ∈ unks, q.1 < 2 ^ 32 ∧ q.2 < 2 ^ 32
   | .Sound => True)

/-- Field bounds of a compressed entry. -/
def ceOk (c : CompressedEntry) : Prop :=
  c.uncompressed_size < 2 ^ 32 ∧ c.name.length < 2 ^ 32 ∧
  (match c.file_type with
   | .Image w h unks =>
     w < 2 ^ 32 ∧ h < 2 ^ 32 ∧ unks.length = 3 ∧
       ∀ q ∈ unks, q.1 < 2 ^ 32 ∧ q.2 < 2 ^ 32
   | .Sound => True)

end Encoding


/-- A one-entry sound archive used as a concrete instance. -/
def c6Archive : Encoding.Archive :=
  ⟨[⟨[97], .Sound, .Compressed [1, 2, 3] 3⟩]⟩

/-- A one-entry TOC whose Sound entry carries non-zero width, height and
metadata pairs, used as a concrete instance. -/
def c10Toc : Toc :=
  ⟨[⟨[], FileType.Sound, 0, 0, 0, 7, 9, [(1, 2), (3, 4), (5, 6)]⟩]⟩

/-- The archive that `from_file_and_toc` materializes from `c10Toc` and an
empty file. -/
def c10Archive : Encoding.Archive :=
  ⟨[⟨[], .Sound, .Compressed [] 0⟩]⟩

/-- The byte image of the empty archive. -/
def c1Bytes : List Nat := [4, 0, 0, 0, 0, 0, 0, 0]

lemma interpolate_le255 (bits a b idx : Nat) : interpolate bits a b idx ≤ 255 := by
  unfold interpolate
  dsimp only
  omega

lemma rotApply_a_le (rot : Nat) (t : Texel)
    (h : t.r ≤ 255 ∧ t.g ≤ 255 ∧ t.b ≤ 255 ∧ t.a ≤ 255) : (rotApply rot t).a ≤ 255 := by
  unfold rotApply
  split <;> simp_all

lemma allAlpha255_decodeMode0 (b : Nat) : allAlpha255 (decodeMode0 b) = true := by
  simp [allAlpha255, decodeMode0, List.all_eq_true, List.mem_map]

lemma allAlpha255_decodeMode1 (b : Nat) : allAlpha255 (decodeMode1 b) = true := by
  simp [allAlpha255, decodeMode1, List.all_eq_true, List.mem_map]

lemma optTexels_eq_none (f : Nat → Option Texel) (l : List Nat) (i : Nat)
    (hi : i ∈ l) (hf : f i = none) : optTexels f l = none := by
  induction l with
  | nil => cases hi
  | cons a l ih =>
    rcases List.mem_cons.mp hi with rfl | hmem
    · unfold optTexels
      rw [hf]
    · unfold optTexels
      cases hfa : f a
      · rfl
      · rw [ih hmem]

lemma partitions3_has_subset2 :
    ∀ p < 64, ∃ i ∈ List.range 16, (PARTITIONS_3.getD p []).getD i 0 = 2 := by
  decide

/-- Every mode-2 block panics: the texel loop looks up subset id 2 of
the two-row palette array, and every `PARTITIONS_3` row contains a 2. -/
lemma decodeMode2_eq_none (b : Nat) : decodeMode2 b = none := by
  unfold decodeMode2
  dsimp only
  have hp : (Block2.decode b).partition < 64 := by
    have he : (Block2.decode b).partition = b / 2 ^ 3 % 2 ^ 6 := rfl
    rw [he]
    exact Nat.mod_lt _ (by norm_num)
  obtain ⟨i, hi, hsub⟩ := partitions3_has_subset2 _ hp
  refine optTexels_eq_none _ _ i hi ?_
  dsimp only
  rw [hsub]
  rfl

/-- Every mode-3 block panics before any texel is decoded: building the
third palette row reads endpoint 4 of the 4-element endpoint arrays. -/
lemma decodeMode3_eq_none (b : Nat) : decodeMode3 b = none := rfl

lemma allAlphaLe255_decodeMode4 (b : Nat) : allAlphaLe255 (decodeMode4 b) = true := by
  unfold allAlphaLe255 decodeMode4
  dsimp only
  split <;>
  · simp only [List.all_eq_true, List.mem_map, List.mem_range]
    rintro x ⟨i, hi, rfl⟩
    rw [decide_eq_true_eq]
    exact rotApply_a_le _ _
      ⟨interpolate_le255 _ _ _ _, interpolate_le255 _ _ _ _,
       interpolate_le255 _ _ _ _, interpolate_le255 _ _ _ _⟩

lemma allAlphaLe255_decodeMode5 (b : Nat) : allAlphaLe255 (decodeMode5 b) = true := by
  unfold allAlphaLe255 decodeMode5
  simp only [List.all_eq_true, List.mem_map, List.mem_range]
  rintro x ⟨i, hi, rfl⟩
  rw [decide_eq_true_eq]
  exact rotApply_a_le _ _
    ⟨interpolate_le255 _ _ _ _, interpolate_le255 _ _ _ _,
     interpolate_le255 _ _ _ _, interpolate_le255 _ _ _ _⟩

lemma allAlphaLe255_decodeMode6 (b : Nat) : allAlphaLe255 (decodeMode6 b) = true := by
  unfold allAlphaLe255 decodeMode6
  simp only [List.all_eq_true, List.mem_map, List.mem_range]
  rintro x ⟨i, hi, rfl⟩
  rw [decide_eq_true_eq]
  exact interpolate_le255 _ _ _ _

lemma allAlphaLe255_decodeMode7 (b : Nat) : allAlphaLe255 (decodeMode7 b) = true := by
  unfold allAlphaLe255 decodeMode7
  simp only [List.all_eq_true, List.mem_map, List.mem_range]
  rintro x ⟨i, hi, rfl⟩
  rw [decide_eq_true_eq]
  exact interpolate_le255 _ _ _ _

/-- C2: for modes 2 and 3 the source decoder never computes the
anchor-adjusted interpolation the claim describes: it panics on every
such block (the mode-3 arm reads endpoint index 4 of its 4-element
arrays while eagerly building a 3-subset palette, the mode-2 arm looks
up subset id 2 of a 2-row palette array), so no tile at all is
produced, while the claim's anchored 2-bit interpolation is a total
function — at the mode-3 block `c2Block` (endpoints 0 and 255 in subset
0) it gives texel 1 the colour `(171,171,171)`. -/
theorem c2_modes_2_3_panic_instead_of_anchored_interpolation :
    (∀ b, u128TrailingZeros b = 2 → decode_bc7_block b = none) ∧
    (∀ b, u128TrailingZeros b = 3 → decode_bc7_block b = none) ∧
    u128TrailingZeros c2Block = 3 ∧
    (specAnchoredMode3 c2Block).getD 1 zeroTexel = ⟨171, 171, 171, 255⟩ := by
  refine ⟨?_, ?_, by decide, by decide⟩
  · intro b hb
    unfold decode_bc7_block
    rw [hb, if_neg (by omega), if_neg (by omega), if_pos rfl]
    exact decodeMode2_eq_none b
  · intro b hb
    unfold decode_bc7_block
    rw [hb, if_neg (by omega), if_neg (by omega), if_neg (by omega), if_pos rfl]
    exact decodeMode3_eq_none b

/-- C2 witness: the concrete mode-2 block `2 ^ 2` and the concrete
mode-3 block `c2Block` both decode to a panic. -/
theorem c2_modes_2_3_panic_witness :
    decode_bc7_block (2 ^ 2) = none ∧ decode_bc7_block c2Block = none :=
  ⟨(c2_modes_2_3_panic_instead_of_anchored_interpolation).1 (2 ^ 2) (by decide),
   (c2_modes_2_3_panic_instead_of_anchored_interpolation).2.1 c2Block (by decide)⟩

/-- C4: in the mode-7 arm the anchor table is indexed by the texel's
subset rather than by the partition.  At partition 17 the claim's anchor
of subset 1 is texel `ANCHOR_INDEX_2[17] = 2` (which lies in subset 1),
yet the decoder reads texel 2 with 2 bits and instead reads texel 15
with 1 bit. -/
theorem c4_mode7_anchor_indexed_by_subset :
    mode7IndexWidth 17 2 = 2 ∧ mode7IndexWidth 17 15 = 1 ∧
    ANCHOR_INDEX_2.getD 17 0 = 2 ∧ (PARTITIONS_2.getD 17 []).getD 2 0 = 1 := by
  refine ⟨by decide, by decide, by decide, by decide⟩

/-- C3 counterexample: the mode-7 block `2 ^ 7` (all endpoint and p-bit
fields zero) decodes with alpha 0 on every texel, so alpha is not 255
for mode 7. -/
theorem c3_mode7_alpha_not_255 :
    u128TrailingZeros (2 ^ 7) = 7 ∧
    allAlpha255 ((decode_bc7_block (2 ^ 7)).getD []) = false ∧
    ((decode_bc7_block (2 ^ 7)).getD []).getD 0 ⟨9, 9, 9, 9⟩ = ⟨0, 0, 0, 0⟩ := by
  refine ⟨by decide, by decide, by decide⟩

/-- C3 (amended): for every 128-bit block, decoding yields a tile with
alpha = 255 on every texel when the encoded mode is 0 or 1; for modes 2
and 3 the decoder panics (no tile is returned); modes 4, 5, 6 and 7
yield a tile with alpha in `[0,255]` on every texel. -/
theorem c3_alpha_channel_by_mode (block : Nat) (hb : block < 2 ^ 128) :
    (u128TrailingZeros block = 0 ∨ u128TrailingZeros block = 1 →
      ∃ tile, decode_bc7_block block = some tile ∧ allAlpha255 tile = true) ∧
    (u128TrailingZeros block = 2 ∨ u128TrailingZeros block = 3 →
      decode_bc7_block block = none) ∧
    (u128TrailingZeros block = 4 ∨ u128TrailingZeros block = 5 ∨
        u128TrailingZeros block = 6 ∨ u128TrailingZeros block = 7 →
      ∃ tile, decode_bc7_block block = some tile ∧ allAlphaLe255 tile = true) := by
  refine ⟨?_, ?_, ?_⟩
  · rintro (h | h)
    · exact ⟨decodeMode0 block, by simp [decode_bc7_block, h],
        allAlpha255_decodeMode0 block⟩
    · exact ⟨decodeMode1 block, by simp [decode_bc7_block, h],
        allAlpha255_decodeMode1 block⟩
  · rintro (h | h)
    · rw [show decode_bc7_block block = decodeMode2 block by simp [decode_bc7_block, h]]
      exact decodeMode2_eq_none block
    · rw [show decode_bc7_block block = decodeMode3 block by simp [decode_bc7_block, h]]
      exact decodeMode3_eq_none block
  · rintro (h | h | h | h)
    · exact ⟨decodeMode4 block, by simp [decode_bc7_block, h],
        allAlphaLe255_decodeMode4 block⟩
    · exact ⟨decodeMode5 block, by simp [decode_bc7_block, h],
        allAlphaLe255_decodeMode5 block⟩
    · exact ⟨decodeMode6 block, by simp [decode_bc7_block, h],
        allAlphaLe255_decodeMode6 block⟩
    · exact ⟨decodeMode7 block, by simp [decode_bc7_block, h],
        allAlphaLe255_decodeMode7 block⟩

/-- C3 witness: the amended theorem applied at the mode-0 block `1`, the
mode-2 block `2 ^ 2` and the mode-4 block `2 ^ 4`. -/
theorem c3_alpha_channel_by_mode_witness :
    (∃ tile, decode_bc7_block 1 = some tile ∧ allAlpha255 tile = true) ∧
    decode_bc7_block (2 ^ 2) = none ∧
    (∃ tile, decode_bc7_block (2 ^ 4) = some tile ∧ allAlphaLe255 tile = true) :=
  ⟨(c3_alpha_channel_by_mode 1 (by norm_num)).1 (Or.inl (by decide)),
   (c3_alpha_channel_by_mode (2 ^ 2) (by norm_num)).2.1 (Or.inl (by decide)),
   (c3_alpha_channel_by_mode (2 ^ 4) (by norm_num)).2.2 (Or.inl (by decide))⟩

/-- C7: a fully transparent tile is encoded as the canonical zero mode-5
block `2 ^ 5`, and decoding that block yields the fully transparent
tile. -/
theorem c7_transparent_tile_roundtrip (tile : List Texel)
    (hlen : tile.length = 16) (h : (tile.all fun t => t.a == 0) = true) :
    encode_bc7_block tile = 2 ^ 5 ∧ u128TrailingZeros (2 ^ 5) = 5 ∧
      decode_bc7_block (2 ^ 5) = some (List.replicate 16 zeroTexel) := by
  refine ⟨?_, by decide, by decide⟩
  unfold encode_bc7_block
  rw [if_pos h]
  decide

/-- C7 witness: the round trip at a concrete all-transparent tile with
non-zero colour channels. -/
theorem c7_transparent_tile_roundtrip_witness :
    encode_bc7_block (List.replicate 16 ⟨3, 4, 5, 0⟩) = 2 ^ 5 ∧
      u128TrailingZeros (2 ^ 5) = 5 ∧
      decode_bc7_block (2 ^ 5) = some (List.replicate 16 zeroTexel) :=
  c7_transparent_tile_roundtrip (List.replicate 16 ⟨3, 4, 5, 0⟩) (by decide) (by decide)

lemma tzAux_ge (k : Nat) : ∀ fuel b : Nat,
    b % 2 ^ k = 0 → k ≤ fuel → k ≤ u128TrailingZerosAux fuel b := by
  induction k with
  | zero => intro fuel b _ _; exact Nat.zero_le _
  | succ k ih =>
    intro fuel b hb hf
    obtain ⟨c, rfl⟩ := Nat.dvd_of_mod_eq_zero hb
    cases fuel with
    | zero => omega
    | succ fuel =>
      unfold u128TrailingZerosAux
      have h2 : 2 ^ (k + 1) * c % 2 = 0 := by
        have hd : (2 : Nat) ∣ 2 ^ (k + 1) * c :=
          Dvd.dvd.mul_right (dvd_pow_self 2 (Nat.succ_ne_zero k)) c
        omega
      rw [if_neg (by omega)]
      have h3 : 2 ^ (k + 1) * c / 2 = 2 ^ k * c := by
        rw [pow_succ, mul_comm (2 ^ k) 2, mul_assoc]
        exact Nat.mul_div_cancel_left _ (by norm_num)
      rw [h3]
      have h4 := ih fuel (2 ^ k * c) (Nat.mul_mod_right _ _) (by omega)
      omega

/-- C8: a block whose low byte is zero (trailing-zero count at least 8,
including the all-zero block) decodes to the fully transparent tile. -/
theorem c8_invalid_mode_transparent (b : Nat) (hb : b < 2 ^ 128)
    (h : b % 256 = 0) :
    decode_bc7_block b = some (List.replicate 16 zeroTexel) := by
  have h8 : 8 ≤ u128TrailingZeros b := tzAux_ge 8 128 b (by simpa using h) (by norm_num)
  unfold decode_bc7_block u128TrailingZeros at h8 ⊢
  iterate 8 rw [if_neg (by omega)]

/-- C8 witness: the all-zero block decodes to the transparent tile. -/
theorem c8_invalid_mode_transparent_witness :
    decode_bc7_block 0 = some (List.replicate 16 zeroTexel) :=
  c8_invalid_mode_transparent 0 (by norm_num) (by norm_num)

lemma bitLenAux_zero (fuel : Nat) : bitLenAux fuel 0 = 0 := by
  cases fuel <;> rfl

lemma bitLenAux_le (fuel : Nat) : ∀ n, n < 2 ^ fuel → bitLenAux fuel n ≤ fuel := by
  induction fuel with
  | zero => intro n h; simp [bitLenAux]
  | succ fuel ih =>
    intro n h
    unfold bitLenAux
    split
    · omega
    · have hp : 2 ^ (fuel + 1) = 2 * 2 ^ fuel := by ring
      have := ih (n / 2) (by omega)
      omega

lemma bitLenAux_eq (fuel : Nat) : ∀ n, 0 < n → n < 2 ^ fuel →
    bitLenAux fuel n = Nat.log 2 n + 1 := by
  induction fuel with
  | zero => intro n h1 h2; norm_num at h2; omega
  | succ fuel ih =>
    intro n h1 h2
    unfold bitLenAux
    rw [if_neg (by omega)]
    rcases Nat.lt_or_ge n 2 with hn | hn
    · have hone : n = 1 := by omega
      subst hone
      simp [bitLenAux_zero, Nat.log_one_right]
    · have hp : 2 ^ (fuel + 1) = 2 * 2 ^ fuel := by ring
      rw [ih (n / 2) (by omega) (by omega)]
      have hl : Nat.log 2 (n / 2) = Nat.log 2 n - 1 := Nat.log_div_base 2 n
      have hpos : 0 < Nat.log 2 n := Nat.log_pos (by norm_num) hn
      omega

lemma mipHalve_iter (k : Nat) : ∀ n, 0 < n → n < 2 ^ (k + 1) → mipHalve^[k] n = 1 := by
  induction k with
  | zero => intro n h1 h2; norm_num at h2; simp; omega
  | succ k ih =>
    intro n h1 h2
    rw [Function.iterate_succ_apply]
    have h2le : 2 ≤ 2 ^ (k + 1) := by
      calc 2 = 2 ^ 1 := rfl
        _ ≤ 2 ^ (k + 1) := Nat.pow_le_pow_right (by norm_num) (by omega)
    apply ih
    · unfold mipHalve; omega
    · unfold mipHalve
      have hp : 2 ^ (k + 2) = 2 * 2 ^ (k + 1) := by ring
      omega

/-- C5 counterexample: at width 3 and height 1 the code returns 2, but
the claimed formula `max (clog2 w) (clog2 h) + 1` evaluates to 3. -/
theorem c5_ceil_formula_counterexample :
    calculate_mipmap_count 3 1 = 2 ∧ max (Nat.clog 2 3) (Nat.clog 2 1) + 1 = 3 := by
  constructor
  · decide
  · have h3 : Nat.clog 2 3 = 2 := by
      have h1 : Nat.clog 2 3 ≤ 2 := (Nat.le_pow_iff_clog_le (by norm_num)).mp (by norm_num)
      have h2 : 1 < Nat.clog 2 3 := (Nat.pow_lt_iff_lt_clog (by norm_num)).mp (by norm_num)
      omega
    rw [h3, Nat.clog_one_right]
    decide

/-- C5 (amended): for positive 32-bit width and height,
`calculate_mipmap_count` equals `max (floor_log2 w) (floor_log2 h) + 1`,
and after `count - 1` mipmap halvings (`(n / 2).max 1`) both dimensions
reach 1, so the declared chain's smallest level is 1×1. -/
theorem c5_mipmap_count_floor_log (w h : Nat) (hw : 0 < w) (hh : 0 < h)
    (hw32 : w < 2 ^ 32) (hh32 : h < 2 ^ 32) :
    calculate_mipmap_count w h = max (Nat.log 2 w) (Nat.log 2 h) + 1 ∧
    mipHalve^[calculate_mipmap_count w h - 1] w = 1 ∧
    mipHalve^[calculate_mipmap_count w h - 1] h = 1 := by
  have bw := bitLenAux_eq 32 w hw hw32
  have bh := bitLenAux_eq 32 h hh hh32
  have lw := bitLenAux_le 32 w hw32
  have lh := bitLenAux_le 32 h hh32
  have hc : calculate_mipmap_count w h = max (Nat.log 2 w) (Nat.log 2 h) + 1 := by
    unfold calculate_mipmap_count u32LeadingZeros
    omega
  have hstep : ∀ n : Nat, 0 < n → Nat.log 2 n ≤ max (Nat.log 2 w) (Nat.log 2 h) →
      mipHalve^[max (Nat.log 2 w) (Nat.log 2 h)] n = 1 := by
    intro n hn hle
    apply mipHalve_iter _ n hn
    calc n < 2 ^ (Nat.log 2 n + 1) := by
            simpa [Nat.succ_eq_add_one] using Nat.lt_pow_succ_log_self (by norm_num) n
      _ ≤ 2 ^ (max (Nat.log 2 w) (Nat.log 2 h) + 1) :=
            Nat.pow_le_pow_right (by norm_num) (by omega)
  refine ⟨hc, ?_, ?_⟩
  · rw [hc]; simpa using hstep w hw (le_max_left _ _)
  · rw [hc]; simpa using hstep h hh (le_max_right _ _)

/-- C5 witness: the amended theorem applied at 1024×512 (and the count
there evaluates to 11). -/
theorem c5_mipmap_count_floor_log_witness :
    calculate_mipmap_count 1024 512 = 11 ∧
    (calculate_mipmap_count 1024 512 = max (Nat.log 2 1024) (Nat.log 2 512) + 1 ∧
      mipHalve^[calculate_mipmap_count 1024 512 - 1] 1024 = 1 ∧
      mipHalve^[calculate_mipmap_count 1024 512 - 1] 512 = 1) :=
  ⟨by decide,
   c5_mipmap_count_floor_log 1024 512 (by norm_num) (by norm_num) (by norm_num) (by norm_num)⟩

lemma readU32_u32le (v : Nat) (r : List Nat) :
    readU32 (Encoding.u32le v ++ r) = some (v % 2 ^ 32, r) := by
  simp only [Encoding.u32le, List.cons_append, List.nil_append, readU32,
             Option.some.injEq, Prod.mk.injEq, and_true]
  omega


lemma entryRecord_sound (e : Encoding.WrittenEntry) (hfe : e.file_type = .Sound) :
    Encoding.entryRecord e =
      Encoding.u32le 1 ++ (Encoding.u32le e.uncompressed_size ++ (Encoding.u32le e.size ++
      (Encoding.u32le 0 ++ (Encoding.u32le 0 ++ (Encoding.u32le 0 ++ (Encoding.u32le 0 ++
      (Encoding.u32le 0 ++ (Encoding.u32le 0 ++ (Encoding.u32le 0 ++ (Encoding.u32le 0 ++
      (Encoding.u32le e.offset ++ (Encoding.u32le (e.name.length % 2 ^ 32) ++
      e.name)))))))))))) := by
  simp [Encoding.entryRecord, Encoding.recordHeader, hfe, List.append_assoc]

lemma entryRecord_image (e : Encoding.WrittenEntry) (w hh : Nat) (q0 q1 q2 : Nat × Nat)
    (hfe : e.file_type = .Image w hh [q0, q1, q2]) :
    Encoding.entryRecord e =
      Encoding.u32le 0 ++ (Encoding.u32le e.uncompressed_size ++ (Encoding.u32le e.size ++
      (Encoding.u32le q0.1 ++ (Encoding.u32le q0.2 ++ (Encoding.u32le q1.1 ++
      (Encoding.u32le q1.2 ++ (Encoding.u32le q2.1 ++ (Encoding.u32le q2.2 ++
      (Encoding.u32le w ++ (Encoding.u32le hh ++ (Encoding.u32le e.offset ++
      (Encoding.u32le (e.name.length % 2 ^ 32) ++ e.name)))))))))))) := by
  simp [Encoding.entryRecord, Encoding.recordHeader, hfe, List.append_assoc]

lemma read_entry_record (e : Encoding.WrittenEntry) (hok : Encoding.writtenOk e)
    (rest : List Nat) :
    read_entry (Encoding.entryRecord e ++ rest) = some (Encoding.decodedOfWritten e, rest) := by
  obtain ⟨h1, h2, h3, h4, hft⟩ := hok
  have m1 : e.uncompressed_size % 2 ^ 32 = e.uncompressed_size := Nat.mod_eq_of_lt h1
  have m2 : e.size % 2 ^ 32 = e.size := Nat.mod_eq_of_lt h2
  have m3 : e.offset % 2 ^ 32 = e.offset := Nat.mod_eq_of_lt h3
  have m4 : e.name.length % 2 ^ 32 = e.name.length := Nat.mod_eq_of_lt h4
  cases hfe : e.file_type with
  | Sound =>
    rw [entryRecord_sound e hfe]
    simp only [List.append_assoc]
    unfold read_entry
    repeat
      first
      | rw [readU32_u32le]
      | rw [Option.bind_eq_bind]
      | rw [Option.some_bind]
      | dsimp only
    rw [m4, m4]
    rw [if_pos (by simp)]
    rw [List.take_left, List.drop_left]
    simp [Encoding.decodedOfWritten, hfe, parseFileType, m1, m2, m3]
    omega
  | Image w hh unks =>
    rw [hfe] at hft
    obtain ⟨hw, hh2, hlen3, hq⟩ := hft
    obtain ⟨q0, q1, q2, rfl⟩ := List.length_eq_three.mp hlen3
    have ma : q0.1 % 2 ^ 32 = q0.1 := Nat.mod_eq_of_lt (hq q0 (by simp)).1
    have mb : q0.2 % 2 ^ 32 = q0.2 := Nat.mod_eq_of_lt (hq q0 (by simp)).2
    have mc : q1.1 % 2 ^ 32 = q1.1 := Nat.mod_eq_of_lt (hq q1 (by simp)).1
    have md : q1.2 % 2 ^ 32 = q1.2 := Nat.mod_eq_of_lt (hq q1 (by simp)).2
    have me : q2.1 % 2 ^ 32 = q2.1 := Nat.mod_eq_of_lt (hq q2 (by simp)).1
    have mf : q2.2 % 2 ^ 32 = q2.2 := Nat.mod_eq_of_lt (hq q2 (by simp)).2
    have mw : w % 2 ^ 32 = w := Nat.mod_eq_of_lt hw
    have mh : hh % 2 ^ 32 = hh := Nat.mod_eq_of_lt hh2
    rw [entryRecord_image e w hh q0 q1 q2 hfe]
    simp only [List.append_assoc]
    unfold read_entry
    repeat
      first
      | rw [readU32_u32le]
      | rw [Option.bind_eq_bind]
      | rw [Option.some_bind]
      | dsimp only
    rw [m4, m4]
    rw [if_pos (by simp)]
    rw [List.take_left, List.drop_left]
    simp [Encoding.decodedOfWritten, hfe, parseFileType, m1, m2, m3,
          ma, mb, mc, md, me, mf, mw, mh]
    simp only [Prod.ext_iff]
    omega

lemma readEntries_flat : ∀ (we : List Encoding.WrittenEntry),
    (∀ e ∈ we, Encoding.writtenOk e) → ∀ rest : List Nat,
    readEntries we.length ((we.map Encoding.entryRecord).flatten ++ rest) =
      some (we.map Encoding.decodedOfWritten) := by
  intro we
  induction we with
  | nil => intro _ rest; simp [readEntries]
  | cons e es ih =>
    intro hok rest
    have h1 := read_entry_record e (hok e (by simp)) ((es.map Encoding.entryRecord).flatten ++ rest)
    simp only [List.length_cons, List.map_cons, List.flatten_cons, List.append_assoc]
    simp only [readEntries]
    rw [h1, Option.bind_eq_bind, Option.some_bind]
    rw [ih (fun x hx => hok x (List.mem_cons_of_mem _ hx)) rest]
    rfl

lemma writtenEntriesAux_length : ∀ (ce : List Encoding.CompressedEntry) (off : Nat),
    (Encoding.writtenEntriesAux ce off).length = ce.length := by
  intro ce
  induction ce with
  | nil => intro off; rfl
  | cons c cs ih => intro off; simp [Encoding.writtenEntriesAux, ih]

lemma writtenEntriesAux_getD_offset : ∀ (ce : List Encoding.CompressedEntry) (off i : Nat),
    off + (ce.map fun c => c.data.length).sum < 2 ^ 32 → i < ce.length →
    ((Encoding.writtenEntriesAux ce off).getD i default).offset =
      off + ((ce.take i).map fun c => c.data.length).sum := by
  intro ce
  induction ce with
  | nil => intro off i _ hi; simp at hi
  | cons c cs ih =>
    intro off i hb hi
    simp only [List.map_cons, List.sum_cons] at hb
    have mlen : c.data.length % 2 ^ 32 = c.data.length := Nat.mod_eq_of_lt (by omega)
    cases i with
    | zero => simp [Encoding.writtenEntriesAux]
    | succ i =>
      simp only [Encoding.writtenEntriesAux, List.getD_cons_succ, mlen]
      have moff : (off + c.data.length) % 2 ^ 32 = off + c.data.length :=
        Nat.mod_eq_of_lt (by omega)
      rw [moff]
      rw [ih (off + c.data.length) i (by omega) (by simpa using hi)]
      simp [List.take_succ_cons]
      omega

lemma writtenEntriesAux_getD_ft : ∀ (ce : List Encoding.CompressedEntry) (off i : Nat),
    i < ce.length →
    ((Encoding.writtenEntriesAux ce off).getD i default).file_type =
      ((ce.getD i default : Encoding.CompressedEntry)).file_type := by
  intro ce
  induction ce with
  | nil => intro off i hi; simp at hi
  | cons c cs ih =>
    intro off i hi
    cases i with
    | zero => simp [Encoding.writtenEntriesAux]
    | succ i =>
      simp only [Encoding.writtenEntriesAux, List.getD_cons_succ]
      exact ih _ i (by simpa using hi)

lemma writtenEntriesAux_ok : ∀ (ce : List Encoding.CompressedEntry) (off : Nat),
    (∀ c ∈ ce, Encoding.ceOk c) → off < 2 ^ 32 →
    off + (ce.map fun c => c.data.length).sum < 2 ^ 32 →
    ∀ e ∈ Encoding.writtenEntriesAux ce off, Encoding.writtenOk e := by
  intro ce
  induction ce with
  | nil => intro off _ _ _ e he; simp [Encoding.writtenEntriesAux] at he
  | cons c cs ih =>
    intro off hok hoff hb e he
    simp only [List.map_cons, List.sum_cons] at hb
    have mlen : c.data.length % 2 ^ 32 = c.data.length := Nat.mod_eq_of_lt (by omega)
    simp only [Encoding.writtenEntriesAux, List.mem_cons] at he
    rcases he with rfl | he
    · obtain ⟨hus, hname, hft⟩ := hok c (by simp)
      exact ⟨hus, by simpa [mlen] using Nat.mod_lt c.data.length (by norm_num), hoff, hname, hft⟩
    · have moff : (off + c.data.length % 2 ^ 32) % 2 ^ 32 = off + c.data.length := by
        rw [mlen]; exact Nat.mod_eq_of_lt (by omega)
      rw [moff] at he
      exact ih (off + c.data.length) (fun x hx => hok x (List.mem_cons_of_mem _ hx))
        (by omega) (by omega) e he

/-- C6: `write_to_file` writes `4 + Σ compressed sizes` as the leading
u32, then the payloads in entry order starting at offset 4, and the
offset it records for the i-th TOC entry is `4` plus the compressed
sizes of the entries before it. -/
theorem c6_write_layout (compress : List Nat → List Nat) (ar : Encoding.Archive)
    (hsz : ((ar.entries.map (Encoding.toCompressed compress)).map fun c => c.data.length).sum + 4
        < 2 ^ 32) :
    ∃ out, Encoding.write_to_file compress ar = some out ∧
      out.take 4 = Encoding.u32le
        (((ar.entries.map (Encoding.toCompressed compress)).map fun c => c.data.length).sum + 4) ∧
      (out.drop 4).take
          ((ar.entries.map (Encoding.toCompressed compress)).map fun c => c.data.length).sum =
        ((ar.entries.map (Encoding.toCompressed compress)).map fun c => c.data).flatten ∧
      ∀ i, i < ar.entries.length →
        ((Encoding.writtenEntriesAux (ar.entries.map (Encoding.toCompressed compress)) 4).getD i
            default).offset =
          4 + (((ar.entries.map (Encoding.toCompressed compress)).take i).map
            fun c => c.data.length).sum := by
  have hlt : ((ar.entries.map (Encoding.toCompressed compress)).map fun c => c.data.length).sum
      < 2 ^ 32 := by omega
  have hmod : (((ar.entries.map (Encoding.toCompressed compress)).map
      fun c => c.data.length).sum + 4) % 2 ^ 32 =
      ((ar.entries.map (Encoding.toCompressed compress)).map fun c => c.data.length).sum + 4 :=
    Nat.mod_eq_of_lt (by omega)
  have hw : Encoding.write_to_file compress ar =
      some (Encoding.u32le
          ((((ar.entries.map (Encoding.toCompressed compress)).map
              fun c => c.data.length).sum + 4) % 2 ^ 32) ++
        ((ar.entries.map (Encoding.toCompressed compress)).map fun c => c.data).flatten ++
        Encoding.u32le
          ((Encoding.writtenEntriesAux (ar.entries.map (Encoding.toCompressed compress))
            4).length % 2 ^ 32) ++
        ((Encoding.writtenEntriesAux (ar.entries.map (Encoding.toCompressed compress)) 4).map
          Encoding.entryRecord).flatten) := by
    unfold Encoding.write_to_file
    rw [if_pos hlt]
  refine ⟨_, hw, ?_, ?_, ?_⟩
  · rw [hmod]
    simp only [List.append_assoc]
    rfl
  · rw [hmod]
    simp only [List.append_assoc]
    have hdrop : (Encoding.u32le
        (((ar.entries.map (Encoding.toCompressed compress)).map fun c => c.data.length).sum + 4) ++
        (((ar.entries.map (Encoding.toCompressed compress)).map fun c => c.data).flatten ++
          (Encoding.u32le
            ((Encoding.writtenEntriesAux (ar.entries.map (Encoding.toCompressed compress))
              4).length % 2 ^ 32) ++
          ((Encoding.writtenEntriesAux (ar.entries.map (Encoding.toCompressed compress)) 4).map
            Encoding.entryRecord).flatten))).drop 4 =
        ((ar.entries.map (Encoding.toCompressed compress)).map fun c => c.data).flatten ++
          (Encoding.u32le
            ((Encoding.writtenEntriesAux (ar.entries.map (Encoding.toCompressed compress))
              4).length % 2 ^ 32) ++
          ((Encoding.writtenEntriesAux (ar.entries.map (Encoding.toCompressed compress)) 4).map
            Encoding.entryRecord).flatten) := rfl
    rw [hdrop]
    have hlenPJ : (((ar.entries.map (Encoding.toCompressed compress)).map
        fun c => c.data).flatten).length =
        ((ar.entries.map (Encoding.toCompressed compress)).map fun c => c.data.length).sum := by
      rw [List.length_flatten]
      simp only [List.map_map]
      rfl
    rw [← hlenPJ, List.take_left]
  · intro i hi
    exact writtenEntriesAux_getD_offset _ 4 i (by omega) (by simpa using hi)

/-- C6 witness: the layout facts at a concrete one-entry archive. -/
theorem c6_write_layout_witness :
    ∃ out, Encoding.write_to_file (fun d => d) c6Archive = some out ∧
      out.take 4 = Encoding.u32le
        (((c6Archive.entries.map (Encoding.toCompressed fun d => d)).map
          fun c => c.data.length).sum + 4) ∧
      (out.drop 4).take
          ((c6Archive.entries.map (Encoding.toCompressed fun d => d)).map
            fun c => c.data.length).sum =
        ((c6Archive.entries.map (Encoding.toCompressed fun d => d)).map fun c => c.data).flatten ∧
      ∀ i, i < c6Archive.entries.length →
        ((Encoding.writtenEntriesAux
            (c6Archive.entries.map (Encoding.toCompressed fun d => d)) 4).getD i
            default).offset =
          4 + (((c6Archive.entries.map (Encoding.toCompressed fun d => d)).take i).map
            fun c => c.data.length).sum :=
  c6_write_layout (fun d => d) c6Archive (by decide)

lemma isSome_bind_some {A B : Type} (x : Option A) (f : A → B) :
    (x.bind fun a => some (f a)).isSome = x.isSome := by
  cases x <;> rfl

lemma convEntries_isSome (file : List Nat) : ∀ es : List DecodedEntry,
    (Encoding.convEntries file es).isSome = true ↔
      ∀ e ∈ es, e.file_type ≠ FileType.Unknown := by
  intro es
  induction es with
  | nil => simp [Encoding.convEntries]
  | cons e es ih =>
    cases hft : e.file_type with
    | Image =>
      simp [Encoding.convEntries, Encoding.convEntry, hft, isSome_bind_some, ih,
            List.forall_mem_cons]
    | Sound =>
      simp [Encoding.convEntries, Encoding.convEntry, hft, isSome_bind_some, ih,
            List.forall_mem_cons]
    | Unknown =>
      simp [Encoding.convEntries, Encoding.convEntry, hft, List.forall_mem_cons]

/-- C9: materializing an archive succeeds exactly when no TOC entry has
the `Unknown` file type (the `unimplemented!()` panic arm, modelled as
`none`), while the TOC parser maps every tag other than 0 and 1 to
`Unknown`. -/
theorem c9_from_file_and_toc_unknown :
    (∀ t : Nat, parseFileType t = FileType.Unknown ↔ t ≠ 0 ∧ t ≠ 1) ∧
    ∀ (file : List Nat) (toc : Toc),
      (Encoding.from_file_and_toc file toc).isSome = true ↔
        ∀ e ∈ toc.entries, e.file_type ≠ FileType.Unknown := by
  constructor
  · intro t
    unfold parseFileType
    split_ifs with ha hb <;> simp_all
  · intro file toc
    have hsame : (Encoding.from_file_and_toc file toc).isSome =
        (Encoding.convEntries file toc.entries).isSome := by
      unfold Encoding.from_file_and_toc
      cases h : Encoding.convEntries file toc.entries <;> simp [h]
    rw [hsame, convEntries_isSome]

lemma convEntries_getD (file : List Nat) : ∀ (es : List DecodedEntry)
    (as2 : List Encoding.Entry), Encoding.convEntries file es = some as2 →
    as2.length = es.length ∧
      ∀ i, i < es.length →
        Encoding.convEntry file (es.getD i default) = some (as2.getD i default) := by
  intro es
  induction es with
  | nil =>
    intro as2 h
    simp [Encoding.convEntries] at h
    simp [← h]
  | cons e es ih =>
    intro as2 h
    unfold Encoding.convEntries at h
    cases hc : Encoding.convEntry file e with
    | none => rw [hc] at h; simp at h
    | some a =>
      rw [hc] at h
      cases hm : Encoding.convEntries file es with
      | none => rw [hm] at h; simp at h
      | some bs =>
        rw [hm] at h
        simp only [Option.bind_eq_bind, Option.some_bind, Option.some.injEq] at h
        subst h
        obtain ⟨hl, hp⟩ := ih bs hm
        refine ⟨by simp [hl], ?_⟩
        intro i hi
        cases i with
        | zero => simpa using hc
        | succ i =>
          simp only [List.getD_cons_succ]
          exact hp i (by simpa using hi)

lemma toCompressed_ft (compress : List Nat → List Nat) (e : Encoding.Entry) :
    (Encoding.toCompressed compress e).file_type = e.file_type := by
  cases h : e.data <;> simp [Encoding.toCompressed, h]

lemma getD_map_toCompressed_ft (compress : List Nat → List Nat) :
    ∀ (l : List Encoding.Entry) (i : Nat), i < l.length →
    ((l.map (Encoding.toCompressed compress)).getD i default).file_type =
      (l.getD i default).file_type := by
  intro l
  induction l with
  | nil => intro i hi; simp at hi
  | cons e es ih =>
    intro i hi
    cases i with
    | zero => simp [toCompressed_ft]
    | succ i =>
      simp only [List.map_cons, List.getD_cons_succ]
      exact ih i (by simpa using hi)

/-- C10: when an archive read back from a file has a Sound entry at
position i (whatever width, height and metadata pairs the TOC held
there), the TOC record that `write_to_file` emits for it carries tag 1,
width 0, height 0 and all-zero metadata pairs. -/
theorem c10_sound_record_zero_metadata (compress : List Nat → List Nat)
    (file : List Nat) (toc : Toc) (ar : Encoding.Archive)
    (har : Encoding.from_file_and_toc file toc = some ar)
    (i : Nat) (hi : i < toc.entries.length)
    (hsound : (toc.entries.getD i default).file_type = FileType.Sound) :
    Encoding.recordHeader
        (((Encoding.writtenEntriesAux (ar.entries.map (Encoding.toCompressed compress)) 4).getD i
            default).file_type) =
      (1, 0, 0, [(0, 0), (0, 0), (0, 0)]) := by
  unfold Encoding.from_file_and_toc at har
  cases hm : Encoding.convEntries file toc.entries with
  | none => rw [hm] at har; simp at har
  | some es =>
    rw [hm] at har
    simp only [Option.bind_eq_bind, Option.some_bind, Option.some.injEq] at har
    obtain ⟨hl, hp⟩ := convEntries_getD file toc.entries es hm
    have hce := hp i hi
    unfold Encoding.convEntry at hce
    rw [hsound] at hce
    have hft2 : (es.getD i default).file_type = Encoding.FileType.Sound := by
      have := Option.some.inj hce
      rw [← this]
    have hent : ar.entries = es := by rw [← har]
    have hi2 : i < ar.entries.length := by rw [hent]; omega
    rw [writtenEntriesAux_getD_ft _ 4 i (by simpa using hi2)]
    rw [getD_map_toCompressed_ft compress ar.entries i hi2]
    rw [hent, hft2]
    rfl

/-- C10 witness: a Sound TOC entry carrying width 7, height 9 and
non-zero metadata pairs is re-emitted with tag 1 and all-zero fields. -/
theorem c10_sound_record_zero_metadata_witness :
    Encoding.recordHeader
        (((Encoding.writtenEntriesAux (c10Archive.entries.map (Encoding.toCompressed fun d => d))
            4).getD 0 default).file_type) =
      (1, 0, 0, [(0, 0), (0, 0), (0, 0)]) :=
  c10_sound_record_zero_metadata (fun d => d) [] c10Toc c10Archive (by decide) 0 (by decide)
    (by decide)

lemma drop_append_left (A B : List Nat) (n : Nat) (h : A.length = n) : (A ++ B).drop n = B := by
  subst h
  exact List.drop_left A B

lemma convEntries_decodedOfWritten :
    ∀ (ce : List Encoding.CompressedEntry) (off : Nat) (file tail : List Nat),
    file.drop off = (ce.map fun c => c.data).flatten ++ tail →
    off + (ce.map fun c => c.data.length).sum < 2 ^ 32 →
    Encoding.convEntries file
        ((Encoding.writtenEntriesAux ce off).map Encoding.decodedOfWritten) =
      some (ce.map fun c => ⟨c.name, c.file_type, .Compressed c.data c.uncompressed_size⟩) := by
  intro ce
  induction ce with
  | nil => intro off file tail _ _; simp [Encoding.writtenEntriesAux, Encoding.convEntries]
  | cons c cs ih =>
    intro off file tail hdrop hb
    simp only [List.map_cons, List.sum_cons] at hb
    have mlen : c.data.length % 2 ^ 32 = c.data.length := Nat.mod_eq_of_lt (by omega)
    have hslice : (file.drop off).take c.data.length = c.data := by
      rw [hdrop]
      simp only [List.map_cons, List.flatten_cons, List.append_assoc]
      exact List.take_left c.data _
    simp only [Encoding.writtenEntriesAux, List.map_cons]
    unfold Encoding.convEntries
    have hconv : Encoding.convEntry file
        (Encoding.decodedOfWritten
          ⟨c.name, c.file_type, c.uncompressed_size, c.data.length % 2 ^ 32, off⟩) =
        some ⟨c.name, c.file_type, .Compressed c.data c.uncompressed_size⟩ := by
      have mlen2 : c.data.length % 4294967296 = c.data.length := mlen
      cases hft : c.file_type with
      | Image w hh unks =>
        simp [Encoding.decodedOfWritten, Encoding.convEntry, hft, mlen, mlen2, hslice]
      | Sound =>
        simp [Encoding.decodedOfWritten, Encoding.convEntry, hft, mlen, mlen2, hslice]
    rw [hconv, Option.bind_eq_bind, Option.some_bind]
    have hdrop2 : file.drop ((off + c.data.length % 2 ^ 32) % 2 ^ 32) =
        (cs.map fun c => c.data).flatten ++ tail := by
      rw [mlen, Nat.mod_eq_of_lt (by omega)]
      have hdd : file.drop (off + c.data.length) = (file.drop off).drop c.data.length := by
        rw [List.drop_drop, Nat.add_comm]
      rw [hdd, hdrop]
      simp only [List.map_cons, List.flatten_cons, List.append_assoc]
      exact drop_append_left c.data _ _ rfl
    rw [ih ((off + c.data.length % 2 ^ 32) % 2 ^ 32) file tail hdrop2
        (by rw [mlen, Nat.mod_eq_of_lt (by omega)]; omega)]
    rw [Option.bind_eq_bind, Option.some_bind]

lemma ceOk_of_entryOk (compress : List Nat → List Nat) (e : Encoding.Entry)
    (h : Encoding.entryOk e = true) : Encoding.ceOk (Encoding.toCompressed compress e) := by
  cases hd : e.data with
  | Raw d => simp [Encoding.entryOk, hd] at h
  | Compressed d us =>
    have htc : Encoding.toCompressed compress e = ⟨e.name, e.file_type, d, us⟩ := by
      simp [Encoding.toCompressed, hd]
    rw [htc]
    cases hft : e.file_type with
    | Image w hh unks =>
      simp only [Encoding.entryOk, hd, hft, Bool.and_eq_true, decide_eq_true_eq,
        List.all_eq_true] at h
      unfold Encoding.ceOk
      dsimp only
      tauto
    | Sound =>
      simp only [Encoding.entryOk, hd, hft, Bool.and_eq_true, decide_eq_true_eq] at h
      unfold Encoding.ceOk
      dsimp only
      exact ⟨h.1.1, h.1.2, trivial⟩

lemma drop_u32le_append (v n : Nat) (B C : List Nat) (h : B.length = n) :
    (Encoding.u32le v ++ (B ++ C)).drop (n + 4) = C := by
  rw [← List.append_assoc]
  apply drop_append_left
  simp [Encoding.u32le, h]

lemma roundtrip_core (ce : List Encoding.CompressedEntry)
    (hok : ∀ c ∈ ce, Encoding.ceOk c)
    (hsum : (ce.map fun c => c.data.length).sum + 4 < 2 ^ 32)
    (hcount : ce.length < 2 ^ 32) :
    read_toc
        (Encoding.u32le (((ce.map fun c => c.data.length).sum + 4) % 2 ^ 32) ++
          (ce.map fun c => c.data).flatten ++
          Encoding.u32le ((Encoding.writtenEntriesAux ce 4).length % 2 ^ 32) ++
          ((Encoding.writtenEntriesAux ce 4).map Encoding.entryRecord).flatten) =
      some ⟨(Encoding.writtenEntriesAux ce 4).map Encoding.decodedOfWritten⟩ ∧
    Encoding.from_file_and_toc
        (Encoding.u32le (((ce.map fun c => c.data.length).sum + 4) % 2 ^ 32) ++
          (ce.map fun c => c.data).flatten ++
          Encoding.u32le ((Encoding.writtenEntriesAux ce 4).length % 2 ^ 32) ++
          ((Encoding.writtenEntriesAux ce 4).map Encoding.entryRecord).flatten)
        ⟨(Encoding.writtenEntriesAux ce 4).map Encoding.decodedOfWritten⟩ =
      some ⟨ce.map fun c =>
        ⟨c.name, c.file_type, .Compressed c.data c.uncompressed_size⟩⟩ := by
  have hwOk : ∀ e ∈ Encoding.writtenEntriesAux ce 4, Encoding.writtenOk e :=
    writtenEntriesAux_ok ce 4 hok (by norm_num) (by omega)
  have hwlen : (Encoding.writtenEntriesAux ce 4).length = ce.length :=
    writtenEntriesAux_length ce 4
  have hcnt2 : (Encoding.writtenEntriesAux ce 4).length % 2 ^ 32 =
      (Encoding.writtenEntriesAux ce 4).length := by
    rw [hwlen]; exact Nat.mod_eq_of_lt hcount
  have hT : ((ce.map fun c => c.data.length).sum + 4) % 2 ^ 32 =
      (ce.map fun c => c.data.length).sum + 4 := Nat.mod_eq_of_lt (by omega)
  have hPJlen : ((ce.map fun c => c.data).flatten).length =
      (ce.map fun c => c.data.length).sum := by
    rw [List.length_flatten]
    simp only [List.map_map]
    rfl
  rw [hT, hcnt2]
  simp only [List.append_assoc]
  constructor
  · unfold read_toc
    rw [readU32_u32le, Option.bind_eq_bind, Option.some_bind]
    dsimp only
    rw [hT]
    rw [drop_u32le_append _ _ _ _ hPJlen]
    rw [readU32_u32le, Option.bind_eq_bind, Option.some_bind]
    dsimp only
    rw [hcnt2]
    rw [← List.append_nil
        (((Encoding.writtenEntriesAux ce 4).map Encoding.entryRecord).flatten)]
    rw [readEntries_flat _ hwOk []]
    rfl
  · unfold Encoding.from_file_and_toc
    have hdrop4 : (Encoding.u32le ((ce.map fun c => c.data.length).sum + 4) ++
        ((ce.map fun c => c.data).flatten ++
          (Encoding.u32le (Encoding.writtenEntriesAux ce 4).length ++
            ((Encoding.writtenEntriesAux ce 4).map Encoding.entryRecord).flatten))).drop 4 =
        (ce.map fun c => c.data).flatten ++
          (Encoding.u32le (Encoding.writtenEntriesAux ce 4).length ++
            ((Encoding.writtenEntriesAux ce 4).map Encoding.entryRecord).flatten) := rfl
    rw [convEntries_decodedOfWritten ce 4 _ _ hdrop4 (by omega)]
    rfl

/-- C1: for every well-formed archive file (the canonical serialization
of a bounded in-memory archive, spec §4.5), parsing it with `read_toc`
and `from_file_and_toc` (every payload kept `Compressed`) and writing it
back with `write_to_file` reproduces the input bytes exactly. -/
theorem c1_parse_emit_roundtrip (compress : List Nat → List Nat) (bs : List Nat)
    (h : Encoding.WellFormed bs) :
    ∃ toc ar2, read_toc bs = some toc ∧
      Encoding.from_file_and_toc bs toc = some ar2 ∧
      Encoding.write_to_file compress ar2 = some bs := by
  obtain ⟨ar, hok, hw⟩ := h
  have hok2 := hok
  unfold Encoding.archiveOk at hok2
  simp only [Bool.and_eq_true, decide_eq_true_eq, List.all_eq_true] at hok2
  obtain ⟨⟨hall, hsum⟩, hcount⟩ := hok2
  have hdl : (ar.entries.map (Encoding.toCompressed fun d => d)).map (fun c => c.data.length) =
      ar.entries.map Encoding.entryDataLen := by
    rw [List.map_map]
    apply List.map_congr_left
    intro e he
    cases hd : e.data <;> simp [Encoding.toCompressed, Encoding.entryDataLen, hd]
  have hsum2 : ((ar.entries.map (Encoding.toCompressed fun d => d)).map
      fun c => c.data.length).sum + 4 < 2 ^ 32 := by rw [hdl]; exact hsum
  have hcnt : (ar.entries.map (Encoding.toCompressed fun d => d)).length < 2 ^ 32 := by
    simpa using hcount
  have hceOk : ∀ c ∈ ar.entries.map (Encoding.toCompressed fun d => d), Encoding.ceOk c := by
    intro c hc
    obtain ⟨e, he, rfl⟩ := List.mem_map.mp hc
    exact ceOk_of_entryOk _ e (hall e he)
  have hlt : ((ar.entries.map (Encoding.toCompressed fun d => d)).map
      fun c => c.data.length).sum < 2 ^ 32 := by omega
  have hwEq : Encoding.write_to_file (fun d => d) ar =
      some (Encoding.u32le
          ((((ar.entries.map (Encoding.toCompressed fun d => d)).map
            fun c => c.data.length).sum + 4) % 2 ^ 32) ++
        ((ar.entries.map (Encoding.toCompressed fun d => d)).map fun c => c.data).flatten ++
        Encoding.u32le
          ((Encoding.writtenEntriesAux (ar.entries.map (Encoding.toCompressed fun d => d))
            4).length % 2 ^ 32) ++
        ((Encoding.writtenEntriesAux (ar.entries.map (Encoding.toCompressed fun d => d)) 4).map
          Encoding.entryRecord).flatten) := by
    unfold Encoding.write_to_file
    rw [if_pos hlt]
  rw [hwEq] at hw
  obtain rfl := Option.some.inj hw
  obtain ⟨hrt, hff⟩ :=
    roundtrip_core (ar.entries.map (Encoding.toCompressed fun d => d)) hceOk hsum2 hcnt
  refine ⟨_, _, hrt, hff, ?_⟩
  have hmap : ((ar.entries.map (Encoding.toCompressed fun d => d)).map fun c =>
      (⟨c.name, c.file_type, Encoding.Data.Compressed c.data c.uncompressed_size⟩ :
        Encoding.Entry)).map (Encoding.toCompressed compress) =
      ar.entries.map (Encoding.toCompressed fun d => d) := by
    rw [List.map_map]
    have hcongr : ∀ c ∈ ar.entries.map (Encoding.toCompressed fun d => d),
        ((Encoding.toCompressed compress) ∘ fun c =>
          (⟨c.name, c.file_type, Encoding.Data.Compressed c.data c.uncompressed_size⟩ :
            Encoding.Entry)) c = id c := fun c _ => rfl
    rw [List.map_congr_left hcongr, List.map_id]
  unfold Encoding.write_to_file
  dsimp only
  rw [hmap]
  rw [if_pos hlt]

/-- C1 witness: the round trip at the byte image of the empty archive. -/
theorem c1_parse_emit_roundtrip_witness :
    Encoding.WellFormed c1Bytes ∧
    ∃ toc ar2, read_toc c1Bytes = some toc ∧
      Encoding.from_file_and_toc c1Bytes toc = some ar2 ∧
      Encoding.write_to_file (fun d => d) ar2 = some c1Bytes := by
  have hwf : Encoding.WellFormed c1Bytes := ⟨⟨[]⟩, by decide, by decide⟩
  exact ⟨hwf, c1_parse_emit_roundtrip (fun d => d) c1Bytes hwf⟩
